import Mathlib

/-!
Verification of the EasyRec feature-engineering core.

This file gives a shallow embedding, in Lean 4, of the parts of the
EasyRec repository that the claims concern:

* `easy_rec/python/feature_column/feature_column.py`
  (`FeatureColumnParser.__init__`, `is_wide` / `is_deep`,
  `parse_id_feature` and the other per-type parse methods, and the
  shared-embedding bookkeeping), and
* `easy_rec/python/input/input.py`
  (`Input._preprocess` for tag / raw / sequence / id features and labels,
  and `Input._lookup_preprocess`).

TensorFlow tensors are modelled by plain Lean lists: a batch of scalar
strings is a `List String`, a dense numeric matrix is a `List (List ℚ)`
(`ℚ` stands in for float32 — every claim here is about ordering,
indexing and control flow, not about rounding), and a tf.SparseTensor is
a list of (row, position) coordinates together with a parallel list of
values and a dense shape.  `tf.string_split` and friends are modelled by
an executable character-level splitter; separators are single
characters, which is how every configuration in the repository uses
them.  Fallible graph operations (`tf.reshape` to an incompatible
shape, `tf.string_to_number` of a non-numeric string, asserts) are
modelled with `Except String`.
-/

namespace EasyRec

/-! ## String splitting primitives -/

/-- Split a character list on a separator character, keeping empty chunks
(the semantics of a delimiter: `n` separators produce `n+1` chunks). -/
def splitChars : List Char → Char → List (List Char)
  | [], _ => [[]]
  | c :: cs, sep =>
    if c = sep then [] :: splitChars cs sep
    else
      match splitChars cs sep with
      | [] => [[c]]
      | p :: ps => (c :: p) :: ps

/-- Model of `tf.string_split` applied to one string: split on the
separator character; `skipEmpty` mirrors the op's `skip_empty` flag. -/
def strSplit (s : String) (sep : Char) (skipEmpty : Bool) : List String :=
  let parts := (splitChars s.data sep).map (fun l => String.mk l)
  if skipEmpty then parts.filter (fun p => p ≠ "") else parts

/-- Model of `tf.string_to_number`: parse a plain decimal natural number;
any other string is a runtime parse failure, which is all the claims
need (the repository feeds it ids and simple numeric literals). -/
def parseNum (s : String) : Option ℚ :=
  if s.data ≠ [] ∧ s.data.all Char.isDigit then
    some ((s.data.foldl (fun n c => n * 10 + (c.toNat - 48)) 0 : ℕ) : ℚ)
  else none

/-- Group a flat list into consecutive pairs: the model of
`tf.reshape(x, [-1, 2])` on a vector of even length. -/
def chunkPairs : List α → List (α × α)
  | a :: b :: rest => (a, b) :: chunkPairs rest
  | _ => []

/-- Group a flat list into consecutive chunks of length `d`: the model of
`tf.reshape(x, [-1, d])`. -/
def chunkList (d : Nat) (l : List α) : List (List α) :=
  match l with
  | [] => []
  | a :: rest =>
    if _h : d = 0 then []
    else ((a :: rest).take d) :: chunkList d ((a :: rest).drop d)
termination_by l.length
decreasing_by
  simp only [List.length_drop, List.length_cons]
  omega

/-! ## Sparse containers -/

/-- A 2-D tf.SparseTensor: (row, position) coordinates, parallel values,
and a declared dense shape. -/
structure Sparse2 (α : Type) where
  indices : List (Nat × Nat)
  values : List α
  shape2 : Nat × Nat
deriving Repr, DecidableEq

/-- A 3-D tf.SparseTensor, produced by the secondary sequence split. -/
structure Sparse3 (α : Type) where
  indices3 : List (Nat × Nat × Nat)
  values : List α
  shape3 : Nat × Nat × Nat
deriving Repr, DecidableEq

/-- Row/position coordinates of a ragged list of rows, assigning row ids
from `i0` upward and positions `0..len-1` inside each row.  `idxFrom rows 0`
is the `indices` field `tf.string_split` produces for `rows`. -/
def idxFrom : List (List String) → Nat → List (Nat × Nat)
  | [], _ => []
  | r :: rs, i => (List.range r.length).map (fun j => (i, j)) ++ idxFrom rs (i + 1)

/-- Longest row length: the second component of the dense shape of a
split result. -/
def maxLen (rows : List (List String)) : Nat :=
  rows.foldl (fun m r => Nat.max m r.length) 0

/-- Model of `tf.string_split(xs, sep)` on a batch of strings. -/
def tfStringSplit (xs : List String) (sep : Char) (skipEmpty : Bool) : Sparse2 String :=
  let rows := xs.map (fun s => strSplit s sep skipEmpty)
  { indices := idxFrom rows 0
    values := rows.flatten
    shape2 := (xs.length, maxLen rows) }

/-! ## Configuration data model

`FeatureConfig` mirrors `easy_rec.python.protos.feature_config_pb2.FeatureConfig`
restricted to the fields the claims touch.  Proto2 optional fields whose
presence (`HasField`) matters in the code are `Option`s; proto fields read
only through their value accessor keep their proto default as the Lean
default value.  `embed_init` stands for the proto's optional embedding
initializer message (only its presence and byte-equality matter). -/

inductive FeatureType where
  | IdFeature | RawFeature | TagFeature | ComboFeature
  | LookupFeature | SequenceFeature | ExprFeature
deriving Repr, DecidableEq

structure FeatureConfig where
  feature_name : Option String := none
  feature_type : FeatureType := .IdFeature
  input_names : List String := []
  hash_bucket_size : Option Nat := none
  vocab_list : List String := []
  vocab_file : String := ""
  num_buckets : Nat := 0
  raw_input_dim : Nat := 1
  boundaries : List ℚ := []
  min_val : ℚ := 0
  max_val : ℚ := 0
  precision : Nat := 0
  separator : Char := ','
  kv_separator : Option Char := none
  seq_multi_sep : Option Char := none
  sub_feature_type : FeatureType := .IdFeature
  sequence_length : Nat := 1
  lookup_max_sel_elem_num : Nat := 10
  embedding_name : Option String := none
  embedding_dim : Nat := 0
  combiner : String := "mean"
  embed_init : Option String := none
  max_partitions : Nat := 1
deriving Repr, DecidableEq

/-- The value accessor `config.hash_bucket_size` (proto default 0). -/
def FeatureConfig.hashBucketVal (fc : FeatureConfig) : Nat :=
  fc.hash_bucket_size.getD 0

/-- `config.feature_name if config.HasField('feature_name') else config.input_names[0]`. -/
def primaryName (fc : FeatureConfig) : String :=
  fc.feature_name.getD (fc.input_names.headD "")

/-- The slice of `DatasetConfig` the preprocessing claims read. -/
structure DataConfig where
  sample_weight : String := ""
  label_fields : List String := []
  label_sep : List Char := []
  label_dim : List Nat := []
deriving Repr, DecidableEq

/-! ## Feature Column Registry: id-feature column choice (C2) -/

/-- The categorical column a feature resolves to, before any embedding is
wrapped around it. -/
inductive CatColumn where
  | hashBucket (key : String) (bucket_size : Nat)
  | vocabListCol (key : String) (vocab : List String) (default_value : Nat)
  | vocabFileCol (key : String) (file : String) (vocab_size : Nat) (default_value : Nat)
  | identityCol (key : String) (num_buckets : Nat) (default_value : Nat)
deriving Repr, DecidableEq

/-- The column-selection logic of `FeatureColumnParser.parse_id_feature`
(feature_column.py lines 232-249).  `vocabSize` stands for
`_get_vocab_size`, the cached line count of a vocabulary file. -/
def parse_id_feature_column (vocabSize : String → Nat) (fc : FeatureConfig) : CatColumn :=
  if fc.hashBucketVal > 0 then
    .hashBucket (fc.input_names.headD "") fc.hashBucketVal
  else if fc.vocab_list ≠ [] then
    .vocabListCol (fc.input_names.headD "") fc.vocab_list 0
  else if fc.vocab_file ≠ "" then
    .vocabFileCol (fc.input_names.headD "") fc.vocab_file (vocabSize fc.vocab_file) 0
  else
    .identityCol (fc.input_names.headD "") fc.num_buckets 0

/-! ## Id-feature preprocessing (C8) -/

/-- Scalar dtype of a raw input field. -/
inductive DTy where
  | tstring | tfloat | tdouble | tint32 | tint64 | tbool
deriving Repr, DecidableEq

/-- What `Input._preprocess` does to an id feature's field
(input.py lines 526-551), summarised as the transformation applied. -/
inductive IdParsed where
  | unchanged
  | toStr (precisionArg : Option Nat)
  | strToInt32
deriving Repr, DecidableEq

/-- Model of the id-feature branch of `Input._preprocess`
(input.py lines 526-551).  A failed Python assert is `Except.error`. -/
def id_preprocess (fc : FeatureConfig) (dtype : DTy) : Except String IdParsed :=
  if fc.hash_bucket_size.isSome then
    if dtype ≠ .tstring then
      if (dtype = .tfloat ∨ dtype = .tdouble) ∧ ¬ 0 < fc.precision then
        .error "it is dangerous to convert float or double to string"
      else
        .ok (.toStr (if (dtype = .tfloat ∨ dtype = .tdouble) ∧ 0 < fc.precision
          then some fc.precision else none))
    else .ok .unchanged
  else if 0 < fc.num_buckets then
    if dtype = .tstring then .ok .strToInt32 else .ok .unchanged
  else .ok .unchanged

/-! ## Feature Column Registry: construction (C1, C5)

`PErr` distinguishes the recoverable `FeatureKeyError` (raised by
`is_wide` / `is_deep` when a feature name is missing from the wide/deep
dict and caught by the constructor's try/except) from fatal Python
asserts. -/

inductive PErr where
  | featureKey (name : String)
  | fatal (msg : String)
deriving Repr, DecidableEq

/-- `easy_rec.python.protos.easy_rec_model_pb2.WideOrDeep`. -/
inductive WideOrDeep where
  | WIDE | DEEP | WIDE_AND_DEEP
deriving Repr, DecidableEq

/-- First-match association-list lookup (model of a Python dict whose
keys are inserted at most once). -/
def alookup (l : List (String × β)) (k : String) : Option β :=
  (l.find? (fun p => p.1 == k)).map (fun p => p.2)

/-- Replace the value stored at key `k` (model of `d[k] = v` for a key
already present). -/
def aupdate (l : List (String × β)) (k : String) (v : β) : List (String × β) :=
  l.map (fun p => if p.1 = k then (k, v) else p)

/-- The `embed_info` dict built per config in
`FeatureColumnParser.__init__` (feature_column.py lines 72-81). -/
structure EmbedInfo where
  embedding_dim : Nat
  combiner : String
  embed_init : Option String
  max_partitions : Nat
deriving Repr, DecidableEq

def embedInfoOf (fc : FeatureConfig) : EmbedInfo :=
  { embedding_dim := fc.embedding_dim
    combiner := fc.combiner
    embed_init := fc.embed_init
    max_partitions := fc.max_partitions }

/-- Bookkeeping state of the shared-embedding scan: for each
embedding_name, the member count (`_share_embed_names`) and the
consistency-checked info (`_share_embed_infos`). -/
abbrev ShareState := List (String × (Nat × EmbedInfo))

/-- One iteration of the first loop of `FeatureColumnParser.__init__`
(feature_column.py lines 68-89): a config without an embedding_name is
skipped; a repeated name must carry dict-equal embed_info (the Python
assert) and bumps the member count; a new name is recorded. -/
def shareStep (st : ShareState) (c : FeatureConfig) : Except PErr ShareState :=
  match c.embedding_name with
  | none => .ok st
  | some n =>
    match alookup st n with
    | some (k, info) =>
      if embedInfoOf c = info then .ok (aupdate st n (k + 1, info))
      else .error (.fatal ("shared embed info of [" ++ n ++ "] is not matched"))
    | none => .ok (st ++ [(n, (1, embedInfoOf c))])

def shareFold : List FeatureConfig → ShareState → Except PErr ShareState
  | [], st => .ok st
  | c :: cs, st =>
    match shareStep st c with
    | .ok st2 => shareFold cs st2
    | .error e => .error e

/-- The shared-embedding scan followed by the prune of names with a
single member (feature_column.py lines 68-97). -/
def buildShareEmbed (configs : List FeatureConfig) : Except PErr ShareState :=
  match shareFold configs [] with
  | .error e => .error e
  | .ok st => .ok (st.filter (fun p => p.2.1 != 1))

/-- Number of configs declaring embedding_name `n`. -/
def countName (configs : List FeatureConfig) (n : String) : Nat :=
  configs.countP (fun c => c.embedding_name == some n)

/-- Member count stored for a name (0 when the name is absent). -/
def cntOf : Option (Nat × EmbedInfo) → Nat
  | none => 0
  | some kv => kv.1

/-- The three column tables the registry produces, reduced to the
feature names they hold (the claims are about membership). -/
structure RegistryState where
  wideColumns : List String := []
  deepColumns : List String := []
  sequenceColumns : List String := []
deriving Repr, DecidableEq

/-- `FeatureColumnParser.is_wide` (feature_column.py lines 191-200): a
name missing from the wide/deep dict raises FeatureKeyError. -/
def is_wide (wd : List (String × WideOrDeep)) (fc : FeatureConfig) : Except PErr Bool :=
  match alookup wd (primaryName fc) with
  | none => .error (.featureKey (primaryName fc))
  | some w => .ok (w == .WIDE || w == .WIDE_AND_DEEP)

/-- `FeatureColumnParser.is_deep` (feature_column.py lines 202-212). -/
def is_deep (wd : List (String × WideOrDeep)) (fc : FeatureConfig) : Except PErr Bool :=
  match alookup wd (primaryName fc) with
  | none => .error (.featureKey (primaryName fc))
  | some w => .ok (w == .DEEP || w == .WIDE_AND_DEEP)

/-- `FeatureColumnParser._add_wide_embedding_column`: asserts
`wide_output_dim > 0`, then stores the column under the feature name. -/
def add_wide_col (wdim : Int) (st : RegistryState) (fc : FeatureConfig) :
    Except PErr RegistryState :=
  if wdim ≤ 0 then .error (.fatal "wide_output_dim is not set")
  else .ok { st with wideColumns := st.wideColumns ++ [primaryName fc] }

/-- `FeatureColumnParser._add_deep_embedding_column`: asserts
`embedding_dim > 0`; sequence features go to the sequence table, all
others to the deep table. -/
def add_deep_col (st : RegistryState) (fc : FeatureConfig) :
    Except PErr RegistryState :=
  if fc.embedding_dim = 0 then .error (.fatal "embedding_dim is not set")
  else if fc.feature_type = .SequenceFeature then
    .ok { st with sequenceColumns := st.sequenceColumns ++ [primaryName fc] }
  else .ok { st with deepColumns := st.deepColumns ++ [primaryName fc] }

/-- The wide/deep classification flow shared by the id, tag, combo,
lookup and bucketized-raw parse methods: `is_wide` then
`_add_wide_embedding_column`, `is_deep` then
`_add_deep_embedding_column`. -/
def wideDeepAdd (wd : List (String × WideOrDeep)) (wdim : Int)
    (fc : FeatureConfig) (st : RegistryState) : Except PErr RegistryState := do
  let w ← is_wide wd fc
  let st1 ← if w then add_wide_col wdim st fc else pure st
  let d ← is_deep wd fc
  if d then add_deep_col st1 fc else pure st1

/-- The registry effects of one `parse_*_feature` call
(feature_column.py lines 111-131 dispatch and lines 222-477 bodies),
reduced to: which asserts run, which wide/deep lookups run, and which
column table receives the feature. -/
def parseConfig (wd : List (String × WideOrDeep)) (wdim : Int)
    (fc : FeatureConfig) (st : RegistryState) : Except PErr RegistryState :=
  match fc.feature_type with
  | .IdFeature => wideDeepAdd wd wdim fc st
  | .TagFeature => wideDeepAdd wd wdim fc st
  | .RawFeature =>
    let bounds : Option (List ℚ) :=
      if fc.boundaries ≠ [] then some fc.boundaries
      else if 1 < fc.num_buckets ∧ fc.min_val < fc.max_val then
        some ((List.range fc.num_buckets).map (fun x => (x : ℚ) / (fc.num_buckets : ℚ)))
      else none
    match bounds with
    | some _ => wideDeepAdd wd wdim fc st
    | none => do
      let w ← is_wide wd fc
      let st1 ← if w then add_wide_col wdim st fc else pure st
      let d ← is_deep wd fc
      if d then
        if 0 < fc.embedding_dim then add_deep_col st1 fc
        else pure { st1 with deepColumns := st1.deepColumns ++ [primaryName fc] }
      else pure st1
  | .ComboFeature =>
    if fc.input_names.length < 2 then .error (.fatal "combo feature requires 2 inputs")
    else wideDeepAdd wd wdim fc st
  | .LookupFeature =>
    if fc.hash_bucket_size.isSome then wideDeepAdd wd wdim fc st
    else .error (.fatal "lookup feature requires hash_bucket_size")
  | .ExprFeature => do
    let w ← is_wide wd fc
    let st1 ← if w then add_wide_col wdim st fc else pure st
    let d ← is_deep wd fc
    if d then pure { st1 with deepColumns := st1.deepColumns ++ [primaryName fc] }
    else pure st1
  | .SequenceFeature =>
    if ¬ (fc.sub_feature_type = .IdFeature ∨ fc.sub_feature_type = .RawFeature) then
      .error (.fatal "sub_feature_type only supports IdFeature and RawFeature")
    else if fc.sub_feature_type = .RawFeature ∧ fc.hashBucketVal > 0 then
      .error (.fatal "set sub_feature_type to IdFeature to use hash_bucket_size")
    else if 0 < fc.embedding_dim then add_deep_col st fc
    else .ok { st with sequenceColumns := st.sequenceColumns ++ [primaryName fc] }

/-- The second loop of `FeatureColumnParser.__init__` (lines 111-131):
each config is parsed; a FeatureKeyError skips that one feature and
processing continues with the rest; fatal asserts abort. -/
def parseAll (wd : List (String × WideOrDeep)) (wdim : Int) :
    List FeatureConfig → RegistryState → Except PErr RegistryState
  | [], st => .ok st
  | fc :: rest, st =>
    match parseConfig wd wdim fc st with
    | .ok st2 => parseAll wd wdim rest st2
    | .error (.featureKey _) => parseAll wd wdim rest st
    | .error e => .error e

/-- `FeatureColumnParser.__init__`: the shared-embedding scan runs first
and any mismatch aborts construction before any feature (and hence any
batch) is processed; then the per-feature parse loop runs. -/
def fcp_init (configs : List FeatureConfig) (wd : List (String × WideOrDeep))
    (wdim : Int) : Except PErr (ShareState × RegistryState) :=
  match buildShareEmbed configs with
  | .error e => .error e
  | .ok share =>
    match parseAll wd wdim configs {} with
    | .error e => .error e
    | .ok st => .ok (share, st)

/-- The per-type preconditions asserted by a parse method before its
first wide/deep lookup (combo: at least two inputs; lookup: a
hash_bucket_size). -/
def wellFormedCfg (fc : FeatureConfig) : Prop :=
  match fc.feature_type with
  | .ComboFeature => 2 ≤ fc.input_names.length
  | .LookupFeature => fc.hash_bucket_size.isSome
  | _ => True

/-- A sequence feature whose name is deliberately absent from the
wide/deep map (used to refute claim C5 as stated). -/
def seqNoMapCfg : FeatureConfig :=
  { feature_name := some "click_seq", feature_type := .SequenceFeature,
    input_names := ["click_seq"], sub_feature_type := .IdFeature,
    num_buckets := 100 }

/-- A plain (non-sequence) id feature whose name is absent from the
wide/deep map (used in the C5 witness). -/
def idNoMapCfg : FeatureConfig :=
  { feature_name := some "plain_id", input_names := ["plain_id"],
    num_buckets := 10 }

/-- Two configs sharing embedding_name "emb" with identical info, and a
third with different info (used in the C1 witness). -/
def shareCfgA : FeatureConfig :=
  { feature_name := some "fa", input_names := ["fa"], hash_bucket_size := some 10,
    embedding_name := some "emb", embedding_dim := 8 }

def shareCfgB : FeatureConfig :=
  { feature_name := some "fb", input_names := ["fb"], hash_bucket_size := some 20,
    embedding_name := some "emb", embedding_dim := 8 }

def shareCfgBad : FeatureConfig :=
  { feature_name := some "fc0", input_names := ["fc0"], hash_bucket_size := some 30,
    embedding_name := some "emb", embedding_dim := 16 }

/-- A float id feature with hash bucketing and no precision. -/
def fcFloatNoPrec : FeatureConfig :=
  { input_names := ["price"], hash_bucket_size := some 10 }

/-- A float id feature with hash bucketing and precision 6. -/
def fcFloatPrec : FeatureConfig :=
  { input_names := ["price"], hash_bucket_size := some 10, precision := 6 }

/-- An int id feature with hash bucketing. -/
def fcIntHash : FeatureConfig :=
  { input_names := ["uid"], hash_bucket_size := some 10 }

/-! ## Raw-feature preprocessing (C3, C10)

Model of the RawFeature branch of `Input._preprocess` (input.py lines
473-525) for an already-numeric input field (`tf.to_float` path): the
field is a dense [batch, raw_input_dim] matrix. -/

/-- Take the `i`-th block of `d` consecutive entries of a flat row-major
list: the entries of example `i`. -/
def blockSlice (l : List α) (d i : Nat) : List α :=
  (l.drop (i * d)).take d

/-- The coordinate grid built by tile/reshape/concat (input.py lines
505-514): `indices_0` is each row id repeated `d` times, `indices_1` is
`0..d-1` per row, concatenated along axis 1. -/
def projIndices (n d : Nat) : List (Nat × Nat) :=
  ((List.range n).flatMap (fun i => List.replicate d i)).zip
    ((List.range n).flatMap (fun _ => List.range d))

/-- `indices_1[:, 0]`: the values of the `_raw_proj_id` container. -/
def projIdVals (n d : Nat) : List Nat :=
  (List.range n).flatMap (fun _ => List.range d)

/-- Scatter (id, value) pairs into a dense vector of length `d` (used to
state the reconstruction half of the raw-projection invariant). -/
def scatterPairs (d : Nat) (pairs : List (Nat × ℚ)) : List ℚ :=
  (List.range d).map (fun j =>
    ((pairs.find? (fun p => p.1 == j)).map (fun p => p.2)).getD 0)

structure RawOut where
  parsed : List (List ℚ)
  projId : Option (Sparse2 Nat) := none
  projVal : Option (Sparse2 ℚ) := none
  appended : List String := []
deriving Repr, DecidableEq

/-- The RawFeature branch of `Input._preprocess` (lines 473-525): min/max
normalization when `max_val > min_val`, then — unless boundaries or
buckets are configured or the field is the sample-weight field — the
raw-to-projection fallback appending `_raw_proj_id` / `_raw_proj_val`. -/
def raw_preprocess (dc : DataConfig) (fc : FeatureConfig)
    (field : List (List ℚ)) : RawOut :=
  let input0 := fc.input_names.headD ""
  let parsed :=
    if fc.min_val < fc.max_val then
      field.map (fun r => r.map (fun x => (x - fc.min_val) / (fc.max_val - fc.min_val)))
    else field
  if fc.boundaries = [] ∧ fc.num_buckets ≤ 1 ∧ dc.sample_weight ≠ input0 then
    let n := parsed.length
    let d := fc.raw_input_dim
    { parsed := parsed
      projId := some { indices := projIndices n d, values := projIdVals n d,
                       shape2 := (n, d) }
      projVal := some { indices := projIndices n d, values := parsed.flatten,
                        shape2 := (n, d) }
      appended := [input0 ++ "_raw_proj_id", input0 ++ "_raw_proj_val"] }
  else
    { parsed := parsed }

/-! ## Sequence-feature preprocessing (C6, C10) -/

/-- The secondary split on `seq_multi_sep` (input.py lines 362-374): the
token values of the first split are split again; each inner token's
outer two coordinates are looked up (`tf.gather`) from its parent
token's (row, position) coordinates and the innermost coordinate is the
inner split's own position; the dense shape appends the inner split's
max length. -/
def seqMultiSplit (base : Sparse2 String) (msep : Char) : Sparse3 String :=
  let multi := tfStringSplit base.values msep true
  { indices3 := multi.indices.map (fun tq =>
      ((base.indices.getD tq.1 (0, 0)).1, (base.indices.getD tq.1 (0, 0)).2, tq.2))
    values := multi.values
    shape3 := (base.shape2.1, base.shape2.2, multi.shape2.2) }

/-- `tf.sparse_to_dense` on a 2-D layout (default value 0). -/
def sparseToDense2 (idx : List (Nat × Nat)) (vals : List ℚ) (n m : Nat) :
    List (List ℚ) :=
  (List.range n).map (fun i => (List.range m).map (fun j =>
    (((idx.zip vals).find? (fun p => p.1 == (i, j))).map (fun p => p.2)).getD 0))

/-- `tf.sparse_to_dense` on a 3-D layout (default value 0). -/
def sparseToDense3 (idx : List (Nat × Nat × Nat)) (vals : List ℚ) (n m d : Nat) :
    List (List (List ℚ)) :=
  (List.range n).map (fun i => (List.range m).map (fun j => (List.range d).map (fun r =>
    (((idx.zip vals).find? (fun p => p.1 == (i, j, r))).map (fun p => p.2)).getD 0)))

/-- The 3-D coordinate grid of the sequence projection (input.py lines
447-461). -/
def projIndices3 (n s d : Nat) : List (Nat × Nat × Nat) :=
  ((List.range n).flatMap (fun i => List.replicate (s * d) i)).zip
    (((List.range n).flatMap (fun _ => (List.range s).flatMap (fun j => List.replicate d j))).zip
      ((List.range n).flatMap (fun _ => (List.range s).flatMap (fun _ => List.range d))))

/-- `indices_1[:, 0]` of the 3-D grid: the sequence-position ids. -/
def projIdVals3 (n s d : Nat) : List Nat :=
  (List.range n).flatMap (fun _ => (List.range s).flatMap (fun j => List.replicate d j))

structure SeqOut where
  sparseStr2 : Option (Sparse2 String) := none
  sparseStr3 : Option (Sparse3 String) := none
  sparse2 : Option (Sparse2 ℚ) := none
  sparse3 : Option (Sparse3 ℚ) := none
  dense2 : Option (List (List ℚ)) := none
  dense3 : Option (List (List (List ℚ))) := none
  projId : Option (Sparse2 Nat) := none
  projVal : Option (Sparse2 ℚ) := none
  projId3 : Option (Sparse3 Nat) := none
  projVal3 : Option (Sparse3 ℚ) := none
  appended : List String := []
deriving Repr, DecidableEq

/-- The common guard of the two sequence raw-projection branches
(input.py lines 399-401 and 432-434), without the raw_input_dim arm. -/
def seqProjGuard (dc : DataConfig) (fc : FeatureConfig) (input0 : String) : Prop :=
  fc.boundaries = [] ∧ fc.num_buckets ≤ 1 ∧ fc.hashBucketVal = 0 ∧
    dc.sample_weight ≠ input0 ∧ fc.sub_feature_type = .RawFeature

instance (dc : DataConfig) (fc : FeatureConfig) (input0 : String) :
    Decidable (seqProjGuard dc fc input0) := by
  unfold seqProjGuard; infer_instance

/-- The SequenceFeature branch of `Input._preprocess` (input.py lines
354-472): split on `separator` (keeping empties, as
`tf.compat.v1.strings.split` does), optionally split again on
`seq_multi_sep`, numeric-parse the values when buckets are configured or
the sub-feature is raw, min/max-normalize, then — under the guards of
lines 399-401 / 432-434 — densify and append the `_raw_proj_id` /
`_raw_proj_val` projection (2-D for raw_input_dim = 1, 3-D otherwise; a
projection whose rank disagrees with the parsed layout is a runtime
shape error).  int64 vs float32 parses are both modelled as ℚ. -/
def seq_preprocess (dc : DataConfig) (fc : FeatureConfig)
    (field : List String) : Except String SeqOut :=
  let input0 := fc.input_names.headD ""
  let first := tfStringSplit field fc.separator false
  let n := field.length
  let needNum : Bool :=
    (decide (1 < fc.num_buckets) && decide (fc.max_val = fc.min_val)) ||
      decide (fc.sub_feature_type = .RawFeature)
  match fc.seq_multi_sep with
  | none =>
    if needNum then
      match first.values.mapM parseNum with
      | none => .error "string_to_number"
      | some qs0 =>
        let qs :=
          if 1 < fc.num_buckets ∧ fc.min_val < fc.max_val then
            qs0.map (fun x => (x - fc.min_val) / (fc.max_val - fc.min_val))
          else qs0
        let sp : Sparse2 ℚ := { indices := first.indices, values := qs,
                                shape2 := first.shape2 }
        if seqProjGuard dc fc input0 ∧ fc.raw_input_dim = 1 then
          let dense := sparseToDense2 sp.indices sp.values n fc.sequence_length
          .ok { sparse2 := some sp, dense2 := some dense,
                projId := some { indices := projIndices n fc.sequence_length,
                                 values := projIdVals n fc.sequence_length,
                                 shape2 := (n, fc.sequence_length) },
                projVal := some { indices := projIndices n fc.sequence_length,
                                  values := dense.flatten,
                                  shape2 := (n, fc.sequence_length) },
                appended := [input0 ++ "_raw_proj_id", input0 ++ "_raw_proj_val"] }
        else if seqProjGuard dc fc input0 ∧ 1 < fc.raw_input_dim then
          .error "sparse_to_dense rank mismatch"
        else .ok { sparse2 := some sp }
    else .ok { sparseStr2 := some first }
  | some ms =>
    let first3 := seqMultiSplit first ms
    if needNum then
      match first3.values.mapM parseNum with
      | none => .error "string_to_number"
      | some qs0 =>
        let qs :=
          if 1 < fc.num_buckets ∧ fc.min_val < fc.max_val then
            qs0.map (fun x => (x - fc.min_val) / (fc.max_val - fc.min_val))
          else qs0
        let sp : Sparse3 ℚ := { indices3 := first3.indices3, values := qs,
                                shape3 := first3.shape3 }
        if seqProjGuard dc fc input0 ∧ fc.raw_input_dim = 1 then
          .error "sparse_to_dense rank mismatch"
        else if seqProjGuard dc fc input0 ∧ 1 < fc.raw_input_dim then
          let dense := sparseToDense3 sp.indices3 sp.values n fc.sequence_length
            fc.raw_input_dim
          .ok { sparse3 := some sp, dense3 := some dense,
                projId3 := some { indices3 := projIndices3 n fc.sequence_length
                                    fc.raw_input_dim,
                                  values := projIdVals3 n fc.sequence_length
                                    fc.raw_input_dim,
                                  shape3 := (n, fc.sequence_length, fc.raw_input_dim) },
                projVal3 := some { indices3 := projIndices3 n fc.sequence_length
                                     fc.raw_input_dim,
                                   values := (dense.map List.flatten).flatten,
                                   shape3 := (n, fc.sequence_length, fc.raw_input_dim) },
                appended := [input0 ++ "_raw_proj_id", input0 ++ "_raw_proj_val"] }
        else .ok { sparse3 := some sp }
    else .ok { sparseStr3 := some first3 }

/-! ## Tag-feature kv preprocessing (C7) -/

/-- The kv branch of the TagFeature preprocessing (input.py lines
304-319): split the field on `separator` (skip_empty default True),
split every token on `kv_separator` with skip_empty=False, reshape the
flattened parts to [-1, 2] (failing when the total part count is odd),
parse the second column to float (failing on a non-numeric string), and
emit key and weight sparse tensors over the ORIGINAL first-split
indices. -/
def tag_kv_preprocess (sep kvsep : Char) (field : List String) :
    Except String (Sparse2 String × Sparse2 ℚ) :=
  let base := tfStringSplit field sep true
  let parts := (base.values.map (fun t => strSplit t kvsep false)).flatten
  if parts.length % 2 = 0 then
    let pairs := chunkPairs parts
    match (pairs.map (fun p => p.2)).mapM parseNum with
    | some tmp_vs =>
      .ok ({ indices := base.indices, values := pairs.map (fun p => p.1),
             shape2 := base.shape2 },
           { indices := base.indices, values := tmp_vs, shape2 := base.shape2 })
    | none => .error "string_to_number"
  else .error "cannot reshape to [-1, 2]"

/-! ## Lookup-feature preprocessing (C4) -/

/-- The per-example `_lookup` body of `Input._lookup_preprocess`
(input.py lines 614-632), without the padding: split the serialized map
on `separator`, split every token on `kv_separator` (skip_empty True),
reshape to [-1, 2] (failing when the total part count is odd), and
gather the values whose key equals the example's key, in map order. -/
def lookup_one (fc : FeatureConfig) (key m : String) : Except String (List String) :=
  let kv_map := strSplit m fc.separator true
  let parts := (kv_map.map (fun t => strSplit t (fc.kv_separator.getD ':') true)).flatten
  if parts.length % 2 = 0 then
    let pairs := chunkPairs parts
    .ok ((pairs.filter (fun p => p.1 == key)).map (fun p => p.2))
  else .error "kv_split_reshape"

/-- `tf.boolean_mask` on a vector. -/
def booleanMask (l : List α) (m : List Bool) : List α :=
  (l.zip m).filterMap (fun p => if p.2 then some p.1 else none)

/-- `tf.sequence_mask(n, max)`: the first `n` of `max` slots are valid. -/
def maskList (n max : Nat) : List Bool :=
  (List.range max).map (fun j => decide (j < n))

/-- `Input._lookup_preprocess` on a batch (input.py lines 649-663): map
`_lookup` over (key, map) pairs, pad each selection to
`lookup_max_sel_elem_num` (a selection longer than that is a negative
`tf.pad` — a runtime error), mask away the padding and assemble the
sparse output; rows with zero selections simply contribute no entries.
`tf.reduce_max` over the empty index list is modelled as 0. -/
def lookup_preprocess (fc : FeatureConfig) (batch : List (String × String)) :
    Except String (Sparse2 String) :=
  match batch.mapM (fun p => lookup_one fc p.1 p.2) with
  | .error e => .error e
  | .ok rows =>
    if rows.any (fun r => fc.lookup_max_sel_elem_num < r.length) then
      .error "pad with negative size"
    else
      let maxSel := fc.lookup_max_sel_elem_num
      let vals := (rows.map (fun r =>
        booleanMask (r ++ List.replicate (maxSel - r.length) "")
          (maskList r.length maxSel))).flatten
      let idx1 := (rows.map (fun r =>
        booleanMask ((List.range maxSel).map (fun j => if j < r.length then j else 0))
          (maskList r.length maxSel))).flatten
      let idx0 := (rows.enum.map (fun ir =>
        booleanMask (List.replicate maxSel ir.1) (maskList ir.2.length maxSel))).flatten
      .ok { indices := idx0.zip idx1, values := vals,
            shape2 := (batch.length, idx1.foldl Nat.max 0 + 1) }

/-- The serialized map read as (key, value) entries, and the selection
the spec describes: every entry whose key equals the example's key, in
map order.  This is the specification-side definition `lookup_preprocess`
is compared against. -/
def mapEntries (sep kvsep : Char) (m : String) : List (String × String) :=
  (strSplit m sep true).map (fun t =>
    ((strSplit t kvsep true).headD "", (strSplit t kvsep true).getD 1 ""))

def selOf (fc : FeatureConfig) (key m : String) : List String :=
  ((mapEntries fc.separator (fc.kv_separator.getD ':') m).filter
    (fun p => p.1 == key)).map (fun p => p.2)

/-! ## Label preprocessing (C9) -/

/-- A raw label field tagged with its scalar dtype. -/
inductive FieldV where
  | vstr (l : List String)
  | vfloat (l : List ℚ)
  | vdouble (l : List ℚ)
  | vint32 (l : List Int)
  | vint64 (l : List Int)
  | vbool (l : List Bool)
deriving Repr, DecidableEq

inductive LabelOut where
  | floatVec (l : List ℚ)
  | floatMat (m : List (List ℚ))
  | passthrough (v : FieldV)
deriving Repr, DecidableEq

/-- Whether every value in the label output is of floating dtype. -/
def isFloatOut : LabelOut → Bool
  | .floatVec _ => true
  | .floatMat _ => true
  | .passthrough (.vfloat _) => true
  | .passthrough (.vdouble _) => true
  | _ => false

/-- The label loop body of `Input._preprocess` (input.py lines 575-593)
for one label field: string labels are split (dim > 1), reshaped to
[-1, label_dim] and parsed to float32; numeric labels of dtype float32 /
double / int32 / int64 are passed through UNCHANGED; any other dtype is
a fatal assert. -/
def label_preprocess (label_dim : Nat) (label_sep : Char) (v : FieldV) :
    Except String LabelOut :=
  match v with
  | .vstr l =>
    if 1 < label_dim then
      let flat := (l.map (fun s => strSplit s label_sep true)).flatten
      if flat.length % label_dim = 0 then
        match flat.mapM parseNum with
        | some qs => .ok (.floatMat (chunkList label_dim qs))
        | none => .error "string_to_number"
      else .error "cannot reshape labels"
    else
      match l.mapM parseNum with
      | some qs => .ok (.floatVec qs)
      | none => .error "string_to_number"
  | .vfloat _ => .ok (.passthrough v)
  | .vdouble _ => .ok (.passthrough v)
  | .vint32 _ => .ok (.passthrough v)
  | .vint64 _ => .ok (.passthrough v)
  | .vbool _ => .error "invalid label dtype"

/-! ## Concrete configs for witnesses and counterexamples -/

/-- A raw feature of dimension 2 with no boundaries, buckets or
normalization. -/
def rawPlainCfg : FeatureConfig :=
  { feature_type := .RawFeature, input_names := ["vec"], raw_input_dim := 2 }

/-- A raw feature with min/max normalization configured
(min_val 0 < max_val 2). -/
def rawNormCfg : FeatureConfig :=
  { feature_type := .RawFeature, input_names := ["x"], raw_input_dim := 1,
    min_val := 0, max_val := 2 }

/-- A raw feature whose single input field is the sample-weight field. -/
def rawSwCfg : FeatureConfig :=
  { feature_type := .RawFeature, input_names := ["sw"], raw_input_dim := 1 }

/-- A raw-sub-typed sequence feature over the sample-weight field. -/
def seqSwCfg : FeatureConfig :=
  { feature_type := .SequenceFeature, input_names := ["sw"],
    sub_feature_type := .RawFeature, raw_input_dim := 1, sequence_length := 3 }

/-- A dataset config declaring "sw" as the sample-weight field. -/
def dcSw : DataConfig := { sample_weight := "sw" }

/-- A lookup feature with separator ``,``, kv separator ``:`` and at most
2 selections. -/
def lookupCfg : FeatureConfig :=
  { feature_type := .LookupFeature, feature_name := some "lk",
    input_names := ["k", "m"], hash_bucket_size := some 100,
    separator := ',', kv_separator := some ':',
    lookup_max_sel_elem_num := 2 }

/-! ## Claim theorems: C2 and C8 -/

/-- Claim C2: for every Id feature config, exactly one categorical
encoding strategy is selected by the fixed priority
hash_bucket_size > vocab_list > vocab_file > identity: a positive
hash_bucket_size yields a hash-bucket column regardless of any vocab
settings; otherwise a nonempty vocab_list yields a vocabulary-list
column with default id 0; otherwise a nonempty vocab_file yields a
vocabulary-file column with default id 0; otherwise an identity column
over num_buckets with default id 0. -/
theorem c2_id_feature_priority (vocabSize : String → Nat) (fc : FeatureConfig) :
    (fc.hashBucketVal > 0 →
      parse_id_feature_column vocabSize fc =
        .hashBucket (fc.input_names.headD "") fc.hashBucketVal) ∧
    (¬ fc.hashBucketVal > 0 → fc.vocab_list ≠ [] →
      parse_id_feature_column vocabSize fc =
        .vocabListCol (fc.input_names.headD "") fc.vocab_list 0) ∧
    (¬ fc.hashBucketVal > 0 → fc.vocab_list = [] → fc.vocab_file ≠ "" →
      parse_id_feature_column vocabSize fc =
        .vocabFileCol (fc.input_names.headD "") fc.vocab_file (vocabSize fc.vocab_file) 0) ∧
    (¬ fc.hashBucketVal > 0 → fc.vocab_list = [] → fc.vocab_file = "" →
      parse_id_feature_column vocabSize fc =
        .identityCol (fc.input_names.headD "") fc.num_buckets 0) := by
  refine ⟨?_, ?_, ?_, ?_⟩
  · intro h
    simp [parse_id_feature_column, h]
  · intro h hv
    simp [parse_id_feature_column, h, hv]
  · intro h hv hf
    simp [parse_id_feature_column, h, hv, hf]
  · intro h hv hf
    simp [parse_id_feature_column, h, hv, hf]

/-- Witness for C2: a config with both a hash bucket size and a vocab
list resolves to the hash-bucket column; one with only a vocab list
resolves to the vocabulary-list column with default id 0. -/
theorem c2_id_feature_priority_witness :
    parse_id_feature_column (fun _ => 0)
        { feature_type := .IdFeature, input_names := ["uid"],
          hash_bucket_size := some 100, vocab_list := ["a", "b"] } =
      .hashBucket "uid" 100 ∧
    parse_id_feature_column (fun _ => 0)
        { feature_type := .IdFeature, input_names := ["uid"],
          vocab_list := ["a", "b"] } =
      .vocabListCol "uid" ["a", "b"] 0 := by
  constructor
  · exact (c2_id_feature_priority (fun _ => 0) _).1 (by decide)
  · exact (c2_id_feature_priority (fun _ => 0) _).2.1 (by decide) (by decide)

/-- Claim C8: for an Id feature with hash-bucketing requested whose raw
field has floating dtype, preprocessing fails exactly when the config's
decimal precision is unset (not positive); with a positive precision the
field is converted to a string with that fixed precision; non-floating
numeric fields are converted to strings without requiring a precision. -/
theorem c8_id_float_precision (fc : FeatureConfig) (dtype : DTy)
    (hhash : fc.hash_bucket_size.isSome) :
    ((dtype = .tfloat ∨ dtype = .tdouble) →
      (((∃ e, id_preprocess fc dtype = .error e) ↔ ¬ 0 < fc.precision) ∧
       (0 < fc.precision →
         id_preprocess fc dtype = .ok (.toStr (some fc.precision))))) ∧
    ((dtype = .tint32 ∨ dtype = .tint64) →
      id_preprocess fc dtype = .ok (.toStr none)) := by
  constructor
  · intro hf
    have hns : dtype ≠ .tstring := by rcases hf with h | h <;> simp [h]
    constructor
    · constructor
      · rintro ⟨e, he⟩ hp
        simp [id_preprocess, hhash, hns, hf, hp] at he
      · intro hp
        have herr : id_preprocess fc dtype =
            .error "it is dangerous to convert float or double to string" := by
          simp [id_preprocess, hhash, hns, hf, hp]
        exact ⟨_, herr⟩
    · intro hp
      simp [id_preprocess, hhash, hns, hf, hp]
  · intro hi
    have hns : dtype ≠ .tstring := by rcases hi with h | h <;> simp [h]
    have hnf : ¬ (dtype = .tfloat ∨ dtype = .tdouble) := by
      rcases hi with h | h <;> simp [h]
    simp [id_preprocess, hhash, hns, hnf]

/-- Witness for C8: with hash bucketing, a float field errors when
precision is unset and converts with precision 6 when it is set; an
int64 field converts with no precision argument. -/
theorem c8_id_float_precision_witness :
    (∃ e, id_preprocess fcFloatNoPrec .tfloat = .error e) ∧
    id_preprocess fcFloatPrec .tfloat = .ok (.toStr (some 6)) ∧
    id_preprocess fcIntHash .tint64 = .ok (.toStr none) := by
  refine ⟨?_, ?_, ?_⟩
  · exact ((c8_id_float_precision fcFloatNoPrec .tfloat (by decide)).1 (Or.inl rfl)).1.2
      (by decide)
  · exact ((c8_id_float_precision fcFloatPrec .tfloat (by decide)).1 (Or.inl rfl)).2
      (by decide)
  · exact (c8_id_float_precision fcIntHash .tint64 (by decide)).2 (Or.inr rfl)


/-! ## Association-list lemmas -/

theorem alookup_cons (p : String × β) (l : List (String × β)) (k : String) :
    alookup (p :: l) k = if p.1 = k then some p.2 else alookup l k := by
  simp only [alookup, List.find?_cons]
  by_cases h : p.1 = k
  · have hb : (p.1 == k) = true := beq_iff_eq.mpr h
    simp [hb, h]
  · have hb : (p.1 == k) = false := beq_eq_false_iff_ne.mpr h
    simp [hb, h]

theorem alookup_nil (k : String) : alookup ([] : List (String × β)) k = none := rfl

theorem aupdate_cons (p : String × β) (l : List (String × β)) (k : String) (v : β) :
    aupdate (p :: l) k v = (if p.1 = k then (k, v) else p) :: aupdate l k v := rfl

theorem alookup_append_right {l : List (String × β)} {k : String}
    (h : alookup l k = none) (v : β) : alookup (l ++ [(k, v)]) k = some v := by
  induction l with
  | nil => simp [alookup_cons, alookup_nil]
  | cons p l ih =>
    rw [List.cons_append, alookup_cons]
    rw [alookup_cons] at h
    by_cases hpk : p.1 = k
    · simp [hpk] at h
    · simp only [hpk, if_false]
      simp only [hpk, if_false] at h
      exact ih h

theorem alookup_append_other {l : List (String × β)} {m k : String}
    (h : m ≠ k) (v : β) : alookup (l ++ [(m, v)]) k = alookup l k := by
  induction l with
  | nil => simp [alookup_cons, alookup_nil, h]
  | cons p l ih =>
    rw [List.cons_append, alookup_cons, alookup_cons]
    by_cases hpk : p.1 = k <;> simp [hpk, ih]

theorem alookup_append_cases {l : List (String × β)} {m k : String} {v w : β}
    (h : alookup (l ++ [(m, v)]) k = some w) :
    alookup l k = some w ∨ (k = m ∧ w = v) := by
  induction l with
  | nil =>
    rw [List.nil_append, alookup_cons] at h
    by_cases hmk : m = k
    · simp only [hmk, if_true] at h
      exact Or.inr ⟨hmk.symm, (Option.some_injective _ h).symm⟩
    · simp only [hmk, if_false] at h
      rw [alookup_nil] at h
      exact absurd h (by simp)
  | cons p l ih =>
    rw [List.cons_append, alookup_cons] at h
    rw [alookup_cons]
    by_cases hpk : p.1 = k
    · simp only [hpk, if_true] at h ⊢
      exact Or.inl h
    · simp only [hpk, if_false] at h ⊢
      exact ih h

theorem alookup_aupdate_self {l : List (String × β)} {k : String} {v0 : β}
    (h : alookup l k = some v0) (v : β) : alookup (aupdate l k v) k = some v := by
  induction l with
  | nil => rw [alookup_nil] at h; exact absurd h (by simp)
  | cons p l ih =>
    rw [alookup_cons] at h
    rw [aupdate_cons]
    by_cases hpk : p.1 = k
    · rw [if_pos hpk, alookup_cons]
      simp
    · rw [if_neg hpk, alookup_cons, if_neg hpk]
      rw [if_neg hpk] at h
      exact ih h

theorem alookup_aupdate_other {l : List (String × β)} {k k' : String} {v : β}
    (h : k' ≠ k) : alookup (aupdate l k v) k' = alookup l k' := by
  induction l with
  | nil => rfl
  | cons p l ih =>
    rw [aupdate_cons]
    by_cases hpk : p.1 = k
    · rw [if_pos hpk, alookup_cons, alookup_cons]
      have h1 : ¬ (k, v).1 = k' := fun he => h (he.symm)
      have h2 : ¬ p.1 = k' := by rw [hpk]; exact fun he => h he.symm
      rw [if_neg h1, if_neg h2]
      exact ih
    · rw [if_neg hpk, alookup_cons, alookup_cons]
      by_cases hpk' : p.1 = k'
      · rw [if_pos hpk', if_pos hpk']
      · rw [if_neg hpk', if_neg hpk']
        exact ih

theorem alookup_aupdate_cases {l : List (String × β)} {k k' : String} {v w : β} :
    alookup (aupdate l k v) k' = some w → (k' = k ∧ w = v) ∨ alookup l k' = some w := by
  induction l with
  | nil => intro h; exact Or.inr h
  | cons p l ih =>
    intro h
    rw [aupdate_cons] at h
    by_cases hpk : p.1 = k
    · rw [if_pos hpk, alookup_cons] at h
      by_cases hkk' : (k, v).1 = k'
      · rw [if_pos hkk'] at h
        have : (k, v).2 = w := Option.some_injective _ h
        exact Or.inl ⟨hkk'.symm, this.symm⟩
      · rw [if_neg hkk'] at h
        rcases ih h with h1 | h1
        · exact Or.inl h1
        · right
          rw [alookup_cons, if_neg]
          · exact h1
          · rw [hpk]; exact hkk'
    · rw [if_neg hpk, alookup_cons] at h
      by_cases hpk' : p.1 = k'
      · rw [if_pos hpk'] at h
        right
        rw [alookup_cons, if_pos hpk']
        exact h
      · rw [if_neg hpk'] at h
        rcases ih h with h1 | h1
        · exact Or.inl h1
        · right
          rw [alookup_cons, if_neg hpk']
          exact h1

theorem alookup_filter (q : β → Bool) {l : List (String × β)} {k : String} {v : β}
    (h : alookup l k = some v) (hq : q v = true) :
    alookup (l.filter (fun p => q p.2)) k = some v := by
  induction l with
  | nil => rw [alookup_nil] at h; exact absurd h (by simp)
  | cons p l ih =>
    rw [alookup_cons] at h
    rw [List.filter_cons]
    by_cases hpk : p.1 = k
    · rw [if_pos hpk] at h
      have hv : p.2 = v := Option.some_injective _ h
      rw [hv, hq]
      simp only [if_true]
      rw [alookup_cons, if_pos hpk, hv]
    · rw [if_neg hpk] at h
      cases hqp : q p.2 with
      | true =>
        simp only [hqp, if_true]
        rw [alookup_cons, if_neg hpk]
        exact ih h
      | false =>
        simp only [hqp, Bool.false_eq_true, if_false]
        exact ih h

/-! ## Shared-embedding scan invariants -/

theorem shareStep_preserve {st st2 : ShareState} {c : FeatureConfig}
    (h : shareStep st c = .ok st2) {n : String} {k : Nat} {i : EmbedInfo}
    (hl : alookup st n = some (k, i)) :
    ∃ k', alookup st2 n = some (k', i) := by
  rcases hn : c.embedding_name with _ | m
  · simp only [shareStep, hn] at h
    cases h
    exact ⟨k, hl⟩
  · simp only [shareStep, hn] at h
    rcases hm : alookup st m with _ | ⟨k0, i0⟩
    · simp only [hm] at h
      cases h
      by_cases hnm : n = m
      · subst hnm; rw [hl] at hm; exact absurd hm (by simp)
      · exact ⟨k, by rw [alookup_append_other (fun he => hnm he.symm), hl]⟩
    · simp only [hm] at h
      by_cases hinfo : embedInfoOf c = i0
      · rw [if_pos hinfo] at h
        cases h
        by_cases hnm : n = m
        · subst hnm
          rw [hl] at hm
          have hki : (k, i) = (k0, i0) := Option.some_injective _ hm
          have hk : k = k0 := congrArg Prod.fst hki
          have hi : i = i0 := congrArg Prod.snd hki
          refine ⟨k0 + 1, ?_⟩
          rw [alookup_aupdate_self hl, hi]
        · exact ⟨k, by rw [alookup_aupdate_other hnm, hl]⟩
      · rw [if_neg hinfo] at h
        exact absurd h (by simp)

theorem shareStep_records {st st2 : ShareState} {c : FeatureConfig}
    (h : shareStep st c = .ok st2) {n : String} (hn : c.embedding_name = some n) :
    ∃ k, alookup st2 n = some (k, embedInfoOf c) := by
  simp only [shareStep, hn] at h
  rcases hm : alookup st n with _ | ⟨k0, i0⟩
  · simp only [hm] at h
    cases h
    exact ⟨1, alookup_append_right hm _⟩
  · simp only [hm] at h
    by_cases hinfo : embedInfoOf c = i0
    · rw [if_pos hinfo] at h
      cases h
      exact ⟨k0 + 1, by rw [alookup_aupdate_self hm, hinfo]⟩
    · rw [if_neg hinfo] at h
      exact absurd h (by simp)

theorem shareFold_preserve {cs : List FeatureConfig} :
    ∀ {st st' : ShareState}, shareFold cs st = .ok st' →
    ∀ {n : String} {k : Nat} {i : EmbedInfo}, alookup st n = some (k, i) →
    ∃ k', alookup st' n = some (k', i) := by
  induction cs with
  | nil =>
    intro st st' h n k i hl
    simp only [shareFold] at h
    cases h
    exact ⟨k, hl⟩
  | cons c cs ih =>
    intro st st' h n k i hl
    simp only [shareFold] at h
    rcases hs : shareStep st c with e | st2
    · rw [hs] at h; exact absurd h (by simp)
    · rw [hs] at h
      obtain ⟨k2, h2⟩ := shareStep_preserve hs hl
      exact ih h h2

theorem shareFold_records {cs : List FeatureConfig} :
    ∀ {st st' : ShareState}, shareFold cs st = .ok st' →
    ∀ {c : FeatureConfig}, c ∈ cs → ∀ {n : String}, c.embedding_name = some n →
    ∃ k, alookup st' n = some (k, embedInfoOf c) := by
  induction cs with
  | nil => intro st st' _ c hc; exact absurd hc (List.not_mem_nil c)
  | cons c0 cs ih =>
    intro st st' h c hc n hn
    simp only [shareFold] at h
    rcases hs : shareStep st c0 with e | st2
    · rw [hs] at h; exact absurd h (by simp)
    · rw [hs] at h
      rcases List.mem_cons.mp hc with he | hm
      · subst he
        obtain ⟨k2, h2⟩ := shareStep_records hs hn
        exact shareFold_preserve h h2
      · exact ih h hm hn

theorem shareFold_error_fatal {cs : List FeatureConfig} :
    ∀ {st : ShareState} {e : PErr}, shareFold cs st = .error e →
    ∃ msg, e = .fatal msg := by
  induction cs with
  | nil => intro st e h; exact absurd h (by simp [shareFold])
  | cons c cs ih =>
    intro st e h
    simp only [shareFold] at h
    rcases hs : shareStep st c with e2 | st2
    · rw [hs] at h
      have he : e2 = e := (Except.error.injEq _ _).mp h
      subst he
      simp only [shareStep] at hs
      rcases hn : c.embedding_name with _ | m
      · rw [hn] at hs; exact absurd hs (by simp)
      · rw [hn] at hs
        rcases hm : alookup st m with _ | ⟨k0, i0⟩
        · simp only [hm] at hs; exact absurd hs (by simp)
        · simp only [hm] at hs
          by_cases hinfo : embedInfoOf c = i0
          · rw [if_pos hinfo] at hs
            exact absurd hs (by simp)
          · rw [if_neg hinfo] at hs
            exact ⟨_, ((Except.error.injEq _ _).mp hs).symm⟩
    · rw [hs] at h
      exact ih h

theorem shareFold_count (n : String) {cs : List FeatureConfig} :
    ∀ {st st' : ShareState}, shareFold cs st = .ok st' →
    cntOf (alookup st' n) = cntOf (alookup st n) + countName cs n := by
  induction cs with
  | nil =>
    intro st st' h
    simp only [shareFold] at h
    cases h
    simp [countName]
  | cons c cs ih =>
    intro st st' h
    simp only [shareFold] at h
    rcases hs : shareStep st c with e | st2
    · rw [hs] at h; exact absurd h (by simp)
    · rw [hs] at h
      have hcnt : countName (c :: cs) n =
          countName cs n + (if c.embedding_name = some n then 1 else 0) := by
        simp only [countName, List.countP_cons]
        by_cases hx : c.embedding_name = some n
        · have hb : (c.embedding_name == some n) = true := beq_iff_eq.mpr hx
          simp [hb, hx]
        · have hb : (c.embedding_name == some n) = false := beq_eq_false_iff_ne.mpr hx
          simp [hb, hx]
      rw [ih h, hcnt]
      simp only [shareStep] at hs
      rcases hn : c.embedding_name with _ | m
      · rw [hn] at hs
        cases hs
        simp [hn]
      · rw [hn] at hs
        rcases hm : alookup st m with _ | ⟨k0, i0⟩
        · simp only [hm] at hs
          cases hs
          by_cases hnm : n = m
          · subst hnm
            rw [alookup_append_right hm, hm]
            simp only [cntOf, eq_self_iff_true, if_true]
            omega
          · rw [alookup_append_other (fun he => hnm he.symm)]
            have hne : ¬ (some m : Option String) = some n := by
              intro he; exact hnm (Option.some_injective _ he).symm
            rw [if_neg hne]
            simp
        · simp only [hm] at hs
          by_cases hinfo : embedInfoOf c = i0
          · rw [if_pos hinfo] at hs
            cases hs
            by_cases hnm : n = m
            · subst hnm
              rw [alookup_aupdate_self hm, hm]
              simp only [cntOf, eq_self_iff_true, if_true]
              omega
            · rw [alookup_aupdate_other hnm]
              have hne : ¬ (some m : Option String) = some n := by
                intro he; exact hnm (Option.some_injective _ he).symm
              rw [if_neg hne]
              simp
          · rw [if_neg hinfo] at hs
            exact absurd hs (by simp)

theorem shareFold_ok_of_consistent {configs : List FeatureConfig}
    (H : ∀ c1 ∈ configs, ∀ c2 ∈ configs, ∀ n : String,
      c1.embedding_name = some n → c2.embedding_name = some n →
      embedInfoOf c1 = embedInfoOf c2)
    (cs : List FeatureConfig) :
    ∀ (st : ShareState), (∀ c ∈ cs, c ∈ configs) →
    (∀ n k i, alookup st n = some (k, i) →
      ∃ c ∈ configs, c.embedding_name = some n ∧ embedInfoOf c = i) →
    ∃ st', shareFold cs st = .ok st' := by
  induction cs with
  | nil => intro st _ _; exact ⟨st, rfl⟩
  | cons c cs ih =>
    intro st hsub hP
    have hcmem : c ∈ configs := hsub c (List.mem_cons_self c cs)
    have hsub' : ∀ x ∈ cs, x ∈ configs := fun x hx => hsub x (List.mem_cons_of_mem c hx)
    simp only [shareFold]
    rcases hn : c.embedding_name with _ | n
    · have hs : shareStep st c = .ok st := by simp only [shareStep, hn]
      rw [hs]
      exact ih st hsub' hP
    · rcases hm : alookup st n with _ | ⟨k0, i0⟩
      · have hs : shareStep st c = .ok (st ++ [(n, (1, embedInfoOf c))]) := by
          simp only [shareStep, hn, hm]
        rw [hs]
        refine ih _ hsub' ?_
        intro n' k i hl
        rcases alookup_append_cases hl with h1 | ⟨he, hv⟩
        · exact hP n' k i h1
        · subst he
          have hi : i = embedInfoOf c := congrArg Prod.snd hv
          exact ⟨c, hcmem, hn, hi.symm⟩
      · obtain ⟨c', hc'mem, hc'n, hc'i⟩ := hP n k0 i0 hm
        have heq : embedInfoOf c = i0 := by
          rw [← hc'i]
          exact H c hcmem c' hc'mem n hn hc'n
        have hs : shareStep st c = .ok (aupdate st n (k0 + 1, i0)) := by
          simp only [shareStep, hn, hm]
          rw [if_pos heq]
        rw [hs]
        refine ih _ hsub' ?_
        intro n' k i hl
        rcases alookup_aupdate_cases hl with ⟨he, hv⟩ | h1
        · subst he
          have hi : i = i0 := congrArg Prod.snd hv
          subst hi
          exact ⟨c', hc'mem, hc'n, hc'i⟩
        · exact hP n' k i h1

/-! ## Claim theorems: C1 and C5 -/

theorem wideDeepAdd_err {wd : List (String × WideOrDeep)} {wdim : Int}
    {fc : FeatureConfig} {st : RegistryState} {e : PErr}
    (hw : is_wide wd fc = .error e) :
    wideDeepAdd wd wdim fc st = .error e := by
  unfold wideDeepAdd
  rw [hw]
  rfl

/-- Claim C1: two feature configs declaring the same embedding_name with
differing embedding_info make registry construction fail with a fatal
configuration error (before any batch is processed); when every group of
configs sharing a name carries identical embedding_info, the
shared-embedding check succeeds and each sharing feature (a name with at
least two members) resolves to the one shared lookup-table descriptor
recorded for that name. -/
theorem c1_shared_embedding_consistency (configs : List FeatureConfig)
    (wd : List (String × WideOrDeep)) (wdim : Int) :
    ((∃ c1 ∈ configs, ∃ c2 ∈ configs, ∃ n : String,
        c1.embedding_name = some n ∧ c2.embedding_name = some n ∧
        embedInfoOf c1 ≠ embedInfoOf c2) →
      ∃ msg, fcp_init configs wd wdim = .error (.fatal msg)) ∧
    ((∀ c1 ∈ configs, ∀ c2 ∈ configs, ∀ n : String,
        c1.embedding_name = some n → c2.embedding_name = some n →
        embedInfoOf c1 = embedInfoOf c2) →
      ∃ share, buildShareEmbed configs = .ok share ∧
        ∀ c ∈ configs, ∀ n : String, c.embedding_name = some n →
          2 ≤ countName configs n →
          alookup share n = some (countName configs n, embedInfoOf c)) := by
  constructor
  · rintro ⟨c1, hc1, c2, hc2, n, hn1, hn2, hne⟩
    rcases hsf : shareFold configs [] with e | st'
    · obtain ⟨msg, hmsg⟩ := shareFold_error_fatal hsf
      subst hmsg
      refine ⟨msg, ?_⟩
      have hb : buildShareEmbed configs = .error (.fatal msg) := by
        simp only [buildShareEmbed, hsf]
      simp only [fcp_init, hb]
    · exfalso
      obtain ⟨k1, h1⟩ := shareFold_records hsf hc1 hn1
      obtain ⟨k2, h2⟩ := shareFold_records hsf hc2 hn2
      rw [h1] at h2
      exact hne (congrArg Prod.snd (Option.some_injective _ h2))
  · intro H
    obtain ⟨st', hsf⟩ := shareFold_ok_of_consistent H configs [] (fun c h => h)
      (by intro n k i hl; rw [alookup_nil] at hl; exact absurd hl (by simp))
    refine ⟨st'.filter (fun p => p.2.1 != 1), ?_, ?_⟩
    · simp only [buildShareEmbed, hsf]
    · intro c hc n hn hcnt2
      obtain ⟨k, hk⟩ := shareFold_records hsf hc hn
      have hcount : cntOf (alookup st' n) = countName configs n := by
        have hx := shareFold_count n hsf
        rw [alookup_nil] at hx
        simpa [cntOf] using hx
      rw [hk] at hcount
      simp only [cntOf] at hcount
      have hres := alookup_filter (fun v => v.1 != 1) hk
        (by simp [bne_iff_ne]; omega)
      rw [hcount] at hres
      exact hres

/-- Witness for C1: a catalogue with two configs sharing "emb" but with
embedding dims 8 vs 16 makes construction fail fatally; the consistent
catalogue sharing "emb" with dim 8 builds, and both members resolve to
the single record (2 members, their common embed info). -/
theorem c1_shared_embedding_consistency_witness :
    (∃ msg, fcp_init [shareCfgA, shareCfgBad] [] (-1) = .error (.fatal msg)) ∧
    (∃ share, buildShareEmbed [shareCfgA, shareCfgB] = .ok share ∧
      alookup share "emb" = some (2, embedInfoOf shareCfgA)) := by
  constructor
  · exact (c1_shared_embedding_consistency [shareCfgA, shareCfgBad] [] (-1)).1
      ⟨shareCfgA, by simp, shareCfgBad, by simp, "emb", rfl, rfl, by decide⟩
  · have H : ∀ c1 ∈ [shareCfgA, shareCfgB], ∀ c2 ∈ [shareCfgA, shareCfgB],
        ∀ n : String, c1.embedding_name = some n → c2.embedding_name = some n →
        embedInfoOf c1 = embedInfoOf c2 := by
      intro c1 hc1 c2 hc2 n _ _
      rcases List.mem_cons.mp hc1 with h1 | h1 <;>
        rcases List.mem_cons.mp hc2 with h2 | h2 <;>
        simp only [List.mem_singleton] at * <;> subst h1 <;> subst h2 <;> decide
    obtain ⟨share, hok, hres⟩ :=
      (c1_shared_embedding_consistency [shareCfgA, shareCfgB] [] (-1)).2 H
    refine ⟨share, hok, ?_⟩
    have hx := hres shareCfgA (by simp) "emb" rfl (by decide)
    have hc : countName [shareCfgA, shareCfgB] "emb" = 2 := by decide
    rw [hc] at hx
    exact hx

/-- Claim C5 (amended): a NON-SEQUENCE feature whose primary name is
absent from the wide/deep map is skipped entirely — its parse raises the
recoverable FeatureKeyError before adding any column, and the
constructor's loop continues with the remaining catalogue unchanged.
(Sequence features never consult the wide/deep map, see the
counterexample.) -/
theorem c5_unconfigured_feature_skipped (wd : List (String × WideOrDeep))
    (wdim : Int) (fc : FeatureConfig) (st : RegistryState)
    (rest : List FeatureConfig)
    (hty : fc.feature_type ≠ .SequenceFeature)
    (hwf : wellFormedCfg fc)
    (habs : alookup wd (primaryName fc) = none) :
    parseConfig wd wdim fc st = .error (.featureKey (primaryName fc)) ∧
    parseAll wd wdim (fc :: rest) st = parseAll wd wdim rest st := by
  have hw : is_wide wd fc = .error (.featureKey (primaryName fc)) := by
    simp only [is_wide, habs]
  have hpc : parseConfig wd wdim fc st = .error (.featureKey (primaryName fc)) := by
    cases hft : fc.feature_type with
    | IdFeature =>
      simp only [parseConfig, hft]
      exact wideDeepAdd_err hw
    | TagFeature =>
      simp only [parseConfig, hft]
      exact wideDeepAdd_err hw
    | RawFeature =>
      simp only [parseConfig, hft]
      split
      · exact wideDeepAdd_err hw
      · rw [hw]; rfl
    | ComboFeature =>
      simp only [parseConfig, hft]
      simp only [wellFormedCfg, hft] at hwf
      rw [if_neg (by omega)]
      exact wideDeepAdd_err hw
    | LookupFeature =>
      simp only [parseConfig, hft]
      simp only [wellFormedCfg, hft] at hwf
      rw [if_pos hwf]
      exact wideDeepAdd_err hw
    | ExprFeature =>
      simp only [parseConfig, hft]
      rw [hw]; rfl
    | SequenceFeature => exact absurd hft hty
  refine ⟨hpc, ?_⟩
  simp only [parseAll, hpc]

/-- Counterexample to C5 as stated: a sequence feature whose name is
absent from the wide/deep map is NOT skipped — `parse_sequence_feature`
never calls is_wide / is_deep, so the feature still contributes a
sequence column while the map is empty. -/
theorem c5_counterexample :
    parseAll [] (-1) [seqNoMapCfg] {} =
      .ok { sequenceColumns := ["click_seq"] } ∧
    ({ sequenceColumns := ["click_seq"] } : RegistryState).sequenceColumns ≠ [] := by
  exact ⟨rfl, by decide⟩

/-- Witness for C5 (amended): a concrete id feature absent from an empty
wide/deep map is skipped and the loop proceeds with the rest. -/
theorem c5_unconfigured_feature_skipped_witness :
    parseConfig [] 0 idNoMapCfg {} = .error (.featureKey "plain_id") ∧
    parseAll [] 0 [idNoMapCfg] {} = parseAll [] 0 [] {} := by
  exact c5_unconfigured_feature_skipped [] 0 idNoMapCfg {} []
    (by decide) (by trivial) rfl

/-! ## Row-major block lemmas for the raw projection -/

theorem flatMap_range_len (F : Nat → List α) (d : Nat) (hF : ∀ k, (F k).length = d) :
    ∀ n, ((List.range n).flatMap F).length = n * d := by
  intro n
  induction n with
  | zero => simp
  | succ n ih =>
    rw [List.range_succ, List.flatMap_append, List.length_append, ih]
    simp [hF n, Nat.succ_mul]

theorem blockSlice_flatMap_range (F : Nat → List α) (d : Nat)
    (hF : ∀ k, (F k).length = d) :
    ∀ n i, i < n → blockSlice ((List.range n).flatMap F) d i = F i := by
  intro n
  induction n with
  | zero => intro i hi; exact absurd hi (Nat.not_lt_zero i)
  | succ n ih =>
    intro i hi
    rw [List.range_succ, List.flatMap_append, List.flatMap_cons, List.flatMap_nil,
      List.append_nil]
    have hlen : ((List.range n).flatMap F).length = n * d := flatMap_range_len F d hF n
    by_cases h : i < n
    · unfold blockSlice
      rw [List.drop_append_eq_append_drop, List.take_append_eq_append_take]
      have hsm : (i + 1) * d = i * d + d := Nat.succ_mul i d
      have hmul : (i + 1) * d ≤ n * d := Nat.mul_le_mul_right d h
      have hAlen : (List.drop (i * d) ((List.range n).flatMap F)).length = n * d - i * d := by
        rw [List.length_drop, hlen]
      have h6 : d - (List.drop (i * d) ((List.range n).flatMap F)).length = 0 := by
        rw [hAlen]; omega
      rw [h6, List.take_zero, List.append_nil]
      have := ih i h
      unfold blockSlice at this
      rw [this]
    · have hin : i = n := by omega
      subst hin
      unfold blockSlice
      rw [← hlen, List.drop_left]
      exact List.take_of_length_le (by rw [hF i])

theorem blockSlice_flatten (d : Nat) :
    ∀ (rows : List (List α)), (∀ r ∈ rows, r.length = d) →
    ∀ i, i < rows.length → blockSlice rows.flatten d i = rows.getD i [] := by
  intro rows
  induction rows with
  | nil => intro _ i hi; simp at hi
  | cons r rs ih =>
    intro h i hi
    rw [List.flatten_cons]
    cases i with
    | zero =>
      unfold blockSlice
      rw [Nat.zero_mul, List.drop_zero,
        List.take_append_of_le_length (by rw [h r (by simp)]),
        List.take_of_length_le (by rw [h r (by simp)])]
      rfl
    | succ i =>
      unfold blockSlice
      have hr : r.length = d := h r (by simp)
      have hstep : (i + 1) * d = r.length + i * d := by rw [hr]; ring
      rw [hstep, List.drop_append, List.getD_cons_succ]
      have := ih (fun x hx => h x (by simp [hx])) i (by simpa using hi)
      unfold blockSlice at this
      rw [this]

theorem flatMap_range_len_eq (F : Nat → List α) (G : Nat → List β)
    (hFG : ∀ k, (F k).length = (G k).length) :
    ∀ n, ((List.range n).flatMap F).length = ((List.range n).flatMap G).length := by
  intro n
  induction n with
  | zero => rfl
  | succ n ih =>
    simp only [List.range_succ, List.flatMap_append, List.length_append, ih,
      List.flatMap_cons, List.flatMap_nil, List.append_nil]
    rw [hFG n]

theorem zip_flatMap_range (F : Nat → List α) (G : Nat → List β)
    (hFG : ∀ k, (F k).length = (G k).length) :
    ∀ n, ((List.range n).flatMap F).zip ((List.range n).flatMap G) =
      (List.range n).flatMap (fun k => (F k).zip (G k)) := by
  intro n
  induction n with
  | zero => rfl
  | succ n ih =>
    simp only [List.range_succ, List.flatMap_append, List.flatMap_cons,
      List.flatMap_nil, List.append_nil]
    rw [List.zip_append (flatMap_range_len_eq F G hFG n), ih]

theorem zip_replicate_self (c : Nat) :
    ∀ (l : List α), (List.replicate l.length c).zip l = l.map (fun x => (c, x)) := by
  intro l
  induction l with
  | nil => rfl
  | cons x xs ih =>
    rw [List.length_cons, List.replicate_succ, List.zip_cons_cons, ih, List.map_cons]

theorem projIndices_eq (n d : Nat) :
    projIndices n d =
      (List.range n).flatMap (fun i => (List.range d).map (fun j => (i, j))) := by
  unfold projIndices
  rw [zip_flatMap_range _ _ (fun k => by simp) n]
  rw [List.flatMap_def, List.flatMap_def]
  congr 1
  apply List.map_congr_left
  intro i _
  have := zip_replicate_self i (List.range d)
  rw [List.length_range] at this
  exact this

theorem find_zip_range : ∀ (row : List ℚ) (j : Nat), j < row.length →
    ((List.range row.length).zip row).find? (fun p => p.1 == j) =
      some (j, row.getD j 0) := by
  intro row
  induction row with
  | nil => intro j hj; simp at hj
  | cons x xs ih =>
    intro j hj
    rw [List.length_cons, List.range_succ_eq_map, List.zip_cons_cons]
    cases j with
    | zero => simp [List.find?_cons]
    | succ j =>
      show List.find? (fun p : Nat × ℚ => p.1 == j + 1)
          ((List.map Nat.succ (List.range xs.length)).zip xs) =
        some (j + 1, (x :: xs).getD (j + 1) 0)
      rw [List.zip_map_left, List.find?_map]
      have hcomp : ((fun p : Nat × ℚ => p.1 == j + 1) ∘ Prod.map Nat.succ id) =
          (fun p : Nat × ℚ => p.1 == j) := by
        funext p
        simp [Prod.map, Nat.succ_eq_add_one]
      rw [hcomp, ih j (by simpa using hj)]
      simp [Prod.map]

theorem scatterPairs_zip_range (row : List ℚ) :
    scatterPairs row.length ((List.range row.length).zip row) = row := by
  apply List.ext_getElem
  · simp [scatterPairs]
  · intro j h1 h2
    simp only [scatterPairs, List.getElem_map, List.getElem_range]
    rw [find_zip_range row j (by simpa [scatterPairs] using h1)]
    simp [List.getElem?_eq_getElem h2]

theorem scatterPairs_zip_range' {d : Nat} {row : List ℚ} (h : row.length = d) :
    scatterPairs d ((List.range d).zip row) = row := by
  subst h
  exact scatterPairs_zip_range row

/-! ## Claim theorems: C3 and C10 -/

/-- Claim C3 (amended): for a raw (non-sequence) feature of dimension d
with no boundaries and no buckets configured, whose input field is not
the sample-weight field, preprocessing appends `_raw_proj_id` /
`_raw_proj_val` sparse containers; per example the id values are exactly
0..d-1 in order at the (row, 0..d-1) coordinates, the val values equal
the PREPROCESSED vector's entries in the same order, and scattering val
by id reconstructs that vector; when no min/max normalization is
configured (max_val ≤ min_val) the preprocessed vector is the original
input, so the round trip recovers the input exactly.  (With
normalization configured the projected values are the normalized ones —
see the counterexample.) -/
theorem c3_raw_projection (dc : DataConfig) (fc : FeatureConfig)
    (field : List (List ℚ))
    (hb : fc.boundaries = []) (hnb : fc.num_buckets ≤ 1)
    (hsw : dc.sample_weight ≠ fc.input_names.headD "")
    (hrows : ∀ r ∈ field, r.length = fc.raw_input_dim) :
    ∃ sid sval, (raw_preprocess dc fc field).projId = some sid ∧
      (raw_preprocess dc fc field).projVal = some sval ∧
      (raw_preprocess dc fc field).appended =
        [fc.input_names.headD "" ++ "_raw_proj_id",
         fc.input_names.headD "" ++ "_raw_proj_val"] ∧
      sid.indices = sval.indices ∧
      (∀ i, i < field.length →
        blockSlice sid.indices fc.raw_input_dim i =
          (List.range fc.raw_input_dim).map (fun j => (i, j)) ∧
        blockSlice sid.values fc.raw_input_dim i = List.range fc.raw_input_dim ∧
        blockSlice sval.values fc.raw_input_dim i =
          (raw_preprocess dc fc field).parsed.getD i [] ∧
        scatterPairs fc.raw_input_dim
          ((blockSlice sid.values fc.raw_input_dim i).zip
            (blockSlice sval.values fc.raw_input_dim i)) =
          (raw_preprocess dc fc field).parsed.getD i []) ∧
      (¬ fc.min_val < fc.max_val → (raw_preprocess dc fc field).parsed = field) := by
  set d := fc.raw_input_dim with hd
  set parsed : List (List ℚ) :=
    if fc.min_val < fc.max_val then
      field.map (fun r => r.map (fun x => (x - fc.min_val) / (fc.max_val - fc.min_val)))
    else field with hparsed
  have hplen : parsed.length = field.length := by
    rw [hparsed]
    by_cases hlt : fc.min_val < fc.max_val <;> simp [hlt]
  have hprows : ∀ r ∈ parsed, r.length = d := by
    intro r hr
    rw [hparsed] at hr
    by_cases hlt : fc.min_val < fc.max_val
    · rw [if_pos hlt] at hr
      obtain ⟨r0, hr0, hre⟩ := List.mem_map.mp hr
      rw [← hre, List.length_map]
      exact hrows r0 hr0
    · rw [if_neg hlt] at hr
      exact hrows r hr
  have hout : raw_preprocess dc fc field =
      { parsed := parsed
        projId := some { indices := projIndices parsed.length d,
                         values := projIdVals parsed.length d,
                         shape2 := (parsed.length, d) }
        projVal := some { indices := projIndices parsed.length d,
                          values := parsed.flatten,
                          shape2 := (parsed.length, d) }
        appended := [fc.input_names.headD "" ++ "_raw_proj_id",
                     fc.input_names.headD "" ++ "_raw_proj_val"] } := by
    unfold raw_preprocess
    rw [if_pos ⟨hb, hnb, hsw⟩]
  refine ⟨_, _, by rw [hout], by rw [hout], by rw [hout], rfl, ?_, ?_⟩
  · intro i hi
    have hi' : i < parsed.length := by rw [hplen]; exact hi
    refine ⟨?_, ?_, ?_, ?_⟩
    · rw [projIndices_eq]
      exact blockSlice_flatMap_range _ d (fun k => by simp) parsed.length i hi'
    · exact blockSlice_flatMap_range (fun _ => List.range d) d (fun k => by simp)
        parsed.length i hi'
    · rw [hout]
      exact blockSlice_flatten d parsed hprows i hi'
    · show scatterPairs d
          ((blockSlice ((List.range parsed.length).flatMap (fun _ => List.range d)) d i).zip
            (blockSlice parsed.flatten d i)) =
        (raw_preprocess dc fc field).parsed.getD i []
      rw [blockSlice_flatMap_range (fun _ => List.range d) d (fun k => by simp)
        parsed.length i hi']
      rw [blockSlice_flatten d parsed hprows i hi']
      rw [hout]
      refine scatterPairs_zip_range' ?_
      have hmem : parsed.getD i [] ∈ parsed := by
        rw [List.getD_eq_getElem parsed [] hi']
        exact List.getElem_mem hi'
      exact hprows _ hmem
  · intro hlt
    rw [hout]
    show parsed = field
    rw [hparsed, if_neg hlt]

/-- Counterexample to C3 as stated: with min/max normalization
configured (min_val 0, max_val 2), the `_raw_proj_val` values are the
normalized entries, not the original input: input [[2]] projects to
value list [1] ≠ [2]. -/
theorem c3_counterexample :
    ((raw_preprocess {} rawNormCfg [[2]]).projVal.map
      (fun s => s.values)).getD [] = [1] ∧
    ([1] : List ℚ) ≠ [2] := by
  constructor
  · simp only [raw_preprocess, rawNormCfg]
    norm_num
    rw [if_neg (show ¬("" = "x") by decide)]
    rfl
  · intro h
    rw [List.cons.injEq] at h
    exact absurd h.1 (by norm_num)

/-- Witness for C3 (amended): a 2-dimensional raw feature without
normalization projects [[5, 7]] to ids [0, 1] at coordinates
(0,0), (0,1) and values [5, 7], and the scatter reconstructs [5, 7]. -/
theorem c3_raw_projection_witness :
    ∃ sid sval, (raw_preprocess {} rawPlainCfg [[5, 7]]).projId = some sid ∧
      (raw_preprocess {} rawPlainCfg [[5, 7]]).projVal = some sval ∧
      blockSlice sid.indices 2 0 = [(0, 0), (0, 1)] ∧
      blockSlice sid.values 2 0 = [0, 1] ∧
      blockSlice sval.values 2 0 = [5, 7] ∧
      scatterPairs 2 ((blockSlice sid.values 2 0).zip (blockSlice sval.values 2 0)) =
        [5, 7] := by
  obtain ⟨sid, sval, h1, h2, _h3, _h4, h5, h6⟩ :=
    c3_raw_projection {} rawPlainCfg [[5, 7]] rfl (by decide) (by decide)
      (by intro r hr; simp at hr; rw [hr]; rfl)
  have hdim : rawPlainCfg.raw_input_dim = 2 := rfl
  obtain ⟨ha, hb2, hc, hd2⟩ := h5 0 (by decide)
  rw [hdim] at ha hb2 hc hd2
  have hparsed : (raw_preprocess {} rawPlainCfg [[5, 7]]).parsed.getD 0 [] =
      ([5, 7] : List ℚ) := by
    rw [h6 (by decide)]
    rfl
  refine ⟨sid, sval, h1, h2, ?_, ?_, ?_, ?_⟩
  · rw [ha]; rfl
  · rw [hb2]; rfl
  · rw [hc, hparsed]
  · rw [hd2, hparsed]

/-- Claim C10: when a raw feature's single input field is the dataset's
configured sample-weight field, the raw-to-projection fallback is
suppressed — no `_raw_proj_id` / `_raw_proj_val` containers and no
appended fields are produced — and the same suppression applies to the
sequence raw-projection path. -/
theorem c10_sample_weight_suppresses_projection (dc : DataConfig)
    (fc fcs : FeatureConfig) (field : List (List ℚ)) (sfield : List String)
    (hr : dc.sample_weight = fc.input_names.headD "")
    (hs : dc.sample_weight = fcs.input_names.headD "")
    (hb : fc.boundaries = []) (hnb : fc.num_buckets ≤ 1) :
    ((raw_preprocess dc fc field).projId = none ∧
     (raw_preprocess dc fc field).projVal = none ∧
     (raw_preprocess dc fc field).appended = []) ∧
    (∀ out, seq_preprocess dc fcs sfield = .ok out →
      out.projId = none ∧ out.projVal = none ∧
      out.projId3 = none ∧ out.projVal3 = none ∧ out.appended = []) := by
  constructor
  · have hng : ¬ (fc.boundaries = [] ∧ fc.num_buckets ≤ 1 ∧
        dc.sample_weight ≠ fc.input_names.headD "") := by
      rintro ⟨_, _, hne⟩
      exact hne hr
    unfold raw_preprocess
    rw [if_neg hng]
    exact ⟨rfl, rfl, rfl⟩
  · intro out hout
    have hng : ¬ seqProjGuard dc fcs (fcs.input_names.headD "") := by
      rintro ⟨_, _, _, hne, _⟩
      exact hne hs
    simp only [seq_preprocess] at hout
    rcases hms : fcs.seq_multi_sep with _ | ms
    · simp only [hms] at hout
      split at hout
      · split at hout
        · exact absurd hout (by simp)
        · rw [if_neg (fun hc => hng hc.1), if_neg (fun hc => hng hc.1)] at hout
          have hoe := (Except.ok.injEq _ _).mp hout
          subst hoe
          exact ⟨rfl, rfl, rfl, rfl, rfl⟩
      · have hoe := (Except.ok.injEq _ _).mp hout
        subst hoe
        exact ⟨rfl, rfl, rfl, rfl, rfl⟩
    · simp only [hms] at hout
      split at hout
      · split at hout
        · exact absurd hout (by simp)
        · rw [if_neg (fun hc => hng hc.1), if_neg (fun hc => hng hc.1)] at hout
          have hoe := (Except.ok.injEq _ _).mp hout
          subst hoe
          exact ⟨rfl, rfl, rfl, rfl, rfl⟩
      · have hoe := (Except.ok.injEq _ _).mp hout
        subst hoe
        exact ⟨rfl, rfl, rfl, rfl, rfl⟩

/-- Witness for C10: with sample_weight "sw", the raw feature over field
"sw" gets no projection containers, and the sequence raw path over "sw"
likewise produces an output with no projection and no appended fields. -/
theorem c10_sample_weight_suppresses_projection_witness :
    (raw_preprocess dcSw rawSwCfg [[1]]).projId = none ∧
    (raw_preprocess dcSw rawSwCfg [[1]]).appended = [] ∧
    ∃ out, seq_preprocess dcSw seqSwCfg ["1,2"] = .ok out ∧
      out.projId = none ∧ out.projVal = none ∧ out.appended = [] := by
  have h := c10_sample_weight_suppresses_projection dcSw rawSwCfg seqSwCfg
    [[1]] ["1,2"] rfl rfl rfl (by decide)
  refine ⟨h.1.1, h.1.2.2, ⟨_, rfl, (h.2 _ rfl).1, (h.2 _ rfl).2.1, (h.2 _ rfl).2.2.2.2⟩⟩

/-! ## Pair-reshape lemmas (C7, C4) -/

theorem chunkPairs_pairs : ∀ (ps : List (α × α)),
    chunkPairs ((ps.map (fun p => [p.1, p.2])).flatten) = ps := by
  intro ps
  induction ps with
  | nil => rfl
  | cons p ps ih =>
    rw [List.map_cons, List.flatten_cons]
    show chunkPairs (p.1 :: p.2 :: (List.map (fun q => [q.1, q.2]) ps).flatten) = p :: ps
    rw [chunkPairs, ih]

theorem flatten_pairs_length (ps : List (α × α)) :
    ((ps.map (fun p => [p.1, p.2])).flatten).length = 2 * ps.length := by
  induction ps with
  | nil => rfl
  | cons p ps ih =>
    rw [List.map_cons, List.flatten_cons, List.length_append, ih]
    simp [Nat.mul_succ]
    omega

theorem eq_pair_of_length_two {l : List α} (h : l.length = 2) (d : α) :
    l = [l.headD d, l.getD 1 d] := by
  match l with
  | [] => simp at h
  | [a] => simp at h
  | [a, b] => rfl
  | a :: b :: c :: r => exfalso; simp [List.length_cons] at h

theorem mapM_eq_some_map (f : α → Option β) (d : β) :
    ∀ (l : List α), (∀ x ∈ l, (f x).isSome) →
    l.mapM f = some (l.map (fun x => (f x).getD d)) := by
  intro l
  induction l with
  | nil => intro _; rfl
  | cons x xs ih =>
    intro h
    rw [List.mapM_cons]
    rcases hfx : f x with _ | y
    · have := h x (by simp)
      rw [hfx] at this
      exact absurd this (by simp)
    · rw [ih (fun z hz => h z (by simp [hz]))]
      simp [hfx]

theorem mapM_eq_ok_map (f : α → Except ε β) (g : α → β) :
    ∀ (l : List α), (∀ x ∈ l, f x = .ok (g x)) →
    l.mapM f = .ok (l.map g) := by
  intro l
  induction l with
  | nil => intro _; rfl
  | cons x xs ih =>
    intro h
    rw [List.mapM_cons, h x (by simp), ih (fun z hz => h z (by simp [hz]))]
    rfl

/-! ## Claim theorems: C7 and C9 -/

/-- Claim C7 (amended): for a tag feature with a kv_separator, the code
errors exactly when the flattened kv parts cannot be reshaped to
[-1, 2] (odd total) or a second-column string fails numeric parsing; it
does NOT check that each token splits into exactly two parts (see the
counterexample).  For well-formed input — every token splits into
exactly two parts with a numeric second part — the key container holds
the first parts and the appended weight container holds the parsed
second parts at exactly the same (row, position) indices. -/
theorem c7_tag_kv_weights (sep kvsep : Char) (field : List String)
    (hkv : ∀ t ∈ (tfStringSplit field sep true).values,
      (strSplit t kvsep false).length = 2 ∧
      (parseNum ((strSplit t kvsep false).getD 1 "")).isSome) :
    ∃ ks ws, tag_kv_preprocess sep kvsep field = .ok (ks, ws) ∧
      ks.indices = (tfStringSplit field sep true).indices ∧
      ws.indices = ks.indices ∧
      ws.shape2 = ks.shape2 ∧
      ks.values = (tfStringSplit field sep true).values.map
        (fun t => (strSplit t kvsep false).headD "") ∧
      ws.values = (tfStringSplit field sep true).values.map
        (fun t => (parseNum ((strSplit t kvsep false).getD 1 "")).getD 0) := by
  have hmap : (tfStringSplit field sep true).values.map (fun t => strSplit t kvsep false) =
      ((tfStringSplit field sep true).values.map
        (fun t => ((strSplit t kvsep false).headD "", (strSplit t kvsep false).getD 1 ""))).map
        (fun p => [p.1, p.2]) := by
    rw [List.map_map]
    apply List.map_congr_left
    intro t ht
    exact eq_pair_of_length_two (hkv t ht).1 ""
  simp only [tag_kv_preprocess]
  rw [hmap, flatten_pairs_length]
  rw [if_pos (Nat.mul_mod_right 2 _)]
  rw [chunkPairs_pairs]
  rw [List.map_map, List.map_map]
  rw [mapM_eq_some_map _ 0 _ (by
    intro x hx
    obtain ⟨t, ht, hte⟩ := List.mem_map.mp hx
    have := (hkv t ht).2
    show (parseNum x).isSome
    rw [← hte]
    exact this)]
  exact ⟨_, _, rfl, rfl, rfl, rfl, rfl, by rw [List.map_map]; rfl⟩

/-- Counterexample to C7 as stated: the input value "a:1:2,7" splits
into tokens "a:1:2" (three parts on ':') and "7" (one part), yet
preprocessing succeeds — the reshape only checks that the TOTAL part
count is even, so the mis-split parts pair up as (a,1), (2,7) without
any fatal parse error. -/
theorem c7_counterexample :
    ("7" ∈ (tfStringSplit ["a:1:2,7"] ',' true).values) ∧
    (strSplit "7" ':' false).length ≠ 2 ∧
    ∃ out, tag_kv_preprocess ',' ':' ["a:1:2,7"] = .ok out := by
  refine ⟨by decide, by decide, ⟨_, rfl⟩⟩

/-- Witness for C7 (amended): "a:1,b:2" with separator ',' and
kv_separator ':' yields keys ["a", "b"] and weights [1, 2] on the same
indices (0,0), (0,1). -/
theorem c7_tag_kv_weights_witness :
    ∃ ks ws, tag_kv_preprocess ',' ':' ["a:1,b:2"] = .ok (ks, ws) ∧
      ks.indices = [(0, 0), (0, 1)] ∧ ws.indices = ks.indices ∧
      ks.values = ["a", "b"] ∧ ws.values = [1, 2] := by
  obtain ⟨ks, ws, h1, h2, h3, _h4, h5, h6⟩ :=
    c7_tag_kv_weights ',' ':' ["a:1,b:2"] (by decide)
  refine ⟨ks, ws, h1, ?_, h3, ?_, ?_⟩
  · rw [h2]; rfl
  · rw [h5]; rfl
  · rw [h6]; rfl

/-- Claim C9 (amended): string label fields with dimension > 1 are split
on the per-label separator, reshaped to [-1, label_dim] and numeric-
parsed to float; string labels with dimension ≤ 1 are numeric-parsed to
float; every string-label output is of floating type; but numeric label
fields (float32, double, int32, int64) are passed through UNCHANGED —
integer labels stay integer (see the counterexample) — and any other
dtype is a fatal error. -/
theorem c9_label_preprocessing (label_dim : Nat) (sep : Char) :
    (∀ (l : List String) (qs : List ℚ), 1 < label_dim →
      ((l.map (fun s => strSplit s sep true)).flatten).length % label_dim = 0 →
      ((l.map (fun s => strSplit s sep true)).flatten).mapM parseNum = some qs →
      label_preprocess label_dim sep (.vstr l) =
        .ok (.floatMat (chunkList label_dim qs))) ∧
    (∀ (l : List String) (qs : List ℚ), ¬ 1 < label_dim →
      l.mapM parseNum = some qs →
      label_preprocess label_dim sep (.vstr l) = .ok (.floatVec qs)) ∧
    (∀ out, (∃ l, label_preprocess label_dim sep (.vstr l) = .ok out) →
      isFloatOut out = true) ∧
    (∀ (l : List ℚ),
      label_preprocess label_dim sep (.vfloat l) = .ok (.passthrough (.vfloat l)) ∧
      label_preprocess label_dim sep (.vdouble l) = .ok (.passthrough (.vdouble l))) ∧
    (∀ (l : List Int),
      label_preprocess label_dim sep (.vint32 l) = .ok (.passthrough (.vint32 l)) ∧
      label_preprocess label_dim sep (.vint64 l) = .ok (.passthrough (.vint64 l))) ∧
    (∀ (l : List Bool), ∃ e, label_preprocess label_dim sep (.vbool l) = .error e) := by
  refine ⟨?_, ?_, ?_, ?_, ?_, ?_⟩
  · intro l qs hdim hmod hparse
    simp only [label_preprocess]
    rw [if_pos hdim, if_pos hmod, hparse]
  · intro l qs hdim hparse
    simp only [label_preprocess]
    rw [if_neg hdim, hparse]
  · rintro out ⟨l, h⟩
    simp only [label_preprocess] at h
    by_cases hdim : 1 < label_dim
    · rw [if_pos hdim] at h
      by_cases hmod : ((l.map (fun s => strSplit s sep true)).flatten).length % label_dim = 0
      · rw [if_pos hmod] at h
        rcases hp : ((l.map (fun s => strSplit s sep true)).flatten).mapM parseNum with _ | qs
        · rw [hp] at h; exact absurd h (by simp)
        · rw [hp] at h
          have := (Except.ok.injEq _ _).mp h
          rw [← this]
          rfl
      · rw [if_neg hmod] at h
        exact absurd h (by simp)
    · rw [if_neg hdim] at h
      rcases hp : l.mapM parseNum with _ | qs
      · rw [hp] at h; exact absurd h (by simp)
      · rw [hp] at h
        have := (Except.ok.injEq _ _).mp h
        rw [← this]
        rfl
  · intro l; exact ⟨rfl, rfl⟩
  · intro l; exact ⟨rfl, rfl⟩
  · intro l; exact ⟨_, rfl⟩

/-- Counterexample to C9 as stated: an int32 label field is passed
through unchanged — the output value is not of floating-point type. -/
theorem c9_counterexample :
    label_preprocess 1 ',' (.vint32 [3]) = .ok (.passthrough (.vint32 [3])) ∧
    isFloatOut (.passthrough (.vint32 [3])) = false := ⟨rfl, rfl⟩

/-- Witness for C9 (amended): the string label batch ["1,2"] with
label_dim 2 splits, reshapes to one row of two and parses to
floats [[1, 2]]. -/
theorem c9_label_preprocessing_witness :
    label_preprocess 2 ',' (.vstr ["1,2"]) = .ok (.floatMat [[1, 2]]) := by
  have h := (c9_label_preprocessing 2 ',').1 ["1,2"] [1, 2] (by decide)
    (by decide) (by decide)
  rw [h]
  simp [chunkList]

/-! ## Mask and flatten lemmas for the lookup assembly -/

theorem maskList_zero (k : Nat) : maskList 0 k = List.replicate k false := by
  unfold maskList
  rw [show (fun j => decide (j < 0)) = Function.const Nat false from
    funext (fun j => by simp)]
  rw [List.map_const, List.length_range]

theorem maskList_succ (n k : Nat) : maskList (n + 1) (k + 1) = true :: maskList n k := by
  unfold maskList
  rw [List.range_succ_eq_map, List.map_cons, List.map_map]
  congr 1
  · simp
  · apply List.map_congr_left
    intro j _
    simp [Nat.succ_lt_succ_iff]

theorem booleanMask_nil (m : List Bool) : booleanMask ([] : List α) m = [] := rfl

theorem booleanMask_cons_true (x : α) (xs : List α) (m : List Bool) :
    booleanMask (x :: xs) (true :: m) = x :: booleanMask xs m := rfl

theorem booleanMask_cons_false (x : α) (xs : List α) (m : List Bool) :
    booleanMask (x :: xs) (false :: m) = booleanMask xs m := rfl

theorem booleanMask_replicate_false : ∀ (xs : List α) (k : Nat),
    booleanMask xs (List.replicate k false) = [] := by
  intro xs
  induction xs with
  | nil => intro k; rfl
  | cons x xs ih =>
    intro k
    cases k with
    | zero => rfl
    | succ k =>
      rw [List.replicate_succ, booleanMask_cons_false]
      exact ih k

theorem booleanMask_maskList : ∀ (l : List α) (n k : Nat), l.length = k → n ≤ k →
    booleanMask l (maskList n k) = l.take n := by
  intro l
  induction l with
  | nil => intro n k _ _; rw [booleanMask_nil, List.take_nil]
  | cons x xs ih =>
    intro n k hl hn
    cases k with
    | zero => simp at hl
    | succ k =>
      cases n with
      | zero =>
        rw [maskList_zero, booleanMask_replicate_false, List.take_zero]
      | succ n =>
        rw [maskList_succ, booleanMask_cons_true, List.take_cons_succ]
        exact congrArg (x :: ·) (ih n k (by simpa using hl) (by omega))

theorem zip_flatten : ∀ (A : List (List α)) (B : List (List β)),
    A.length = B.length → (∀ p ∈ A.zip B, p.1.length = p.2.length) →
    A.flatten.zip B.flatten = ((A.zip B).map (fun p => p.1.zip p.2)).flatten := by
  intro A
  induction A with
  | nil =>
    intro B h _
    cases B with
    | nil => rfl
    | cons b B => simp at h
  | cons a A ih =>
    intro B h hp
    cases B with
    | nil => simp at h
    | cons b B =>
      rw [List.flatten_cons, List.flatten_cons,
        List.zip_append (hp (a, b) (by rw [List.zip_cons_cons]; simp)),
        List.zip_cons_cons, List.map_cons, List.flatten_cons,
        ih B (by simpa using h) (fun p hpm => hp p (by rw [List.zip_cons_cons]; simp [hpm]))]

theorem map_eq_enum_map (g : α → β) (l : List α) :
    l.map g = l.enum.map (fun ir => g ir.2) := by
  conv_lhs => rw [← List.enum_map_snd l]
  rw [List.map_map]
  rfl

/-! ## Claim theorems: C4 -/

theorem lookup_one_eq_selOf (fc : FeatureConfig) (key m : String)
    (hwf : ∀ t ∈ strSplit m fc.separator true,
      (strSplit t (fc.kv_separator.getD ':') true).length = 2) :
    lookup_one fc key m = .ok (selOf fc key m) := by
  have hmap : (strSplit m fc.separator true).map
      (fun t => strSplit t (fc.kv_separator.getD ':') true) =
      (mapEntries fc.separator (fc.kv_separator.getD ':') m).map (fun p => [p.1, p.2]) := by
    unfold mapEntries
    rw [List.map_map]
    apply List.map_congr_left
    intro t ht
    exact eq_pair_of_length_two (hwf t ht) ""
  simp only [lookup_one]
  rw [hmap, flatten_pairs_length, if_pos (Nat.mul_mod_right 2 _), chunkPairs_pairs]
  rfl

/-- Claim C4 (amended): for a batch whose serialized maps are
well-formed kv lists (each token splits into exactly two parts) and
whose per-example match counts stay within lookup_max_sel_elem_num,
lookup preprocessing succeeds and produces a sparse container whose
row i holds exactly the values of the map entries of example i whose
key equals that example's key, in map order; examples with zero matches
contribute no entries (they are discarded, not an error); the dense
shape's first component is the batch size.  When some example has MORE
matches than lookup_max_sel_elem_num the code does not cap the
selection but raises a runtime error (the negative `tf.pad`) — see the
counterexample. -/
theorem c4_lookup_selection (fc : FeatureConfig) (batch : List (String × String))
    (hkv : ∀ p ∈ batch, ∀ t ∈ strSplit p.2 fc.separator true,
      (strSplit t (fc.kv_separator.getD ':') true).length = 2)
    (hmax : ∀ p ∈ batch, (selOf fc p.1 p.2).length ≤ fc.lookup_max_sel_elem_num) :
    ∃ s, lookup_preprocess fc batch = .ok s ∧
      s.values = (batch.map (fun p => selOf fc p.1 p.2)).flatten ∧
      s.indices = ((batch.map (fun p => selOf fc p.1 p.2)).enum.map
        (fun ir => (List.range ir.2.length).map (fun j => (ir.1, j)))).flatten ∧
      s.shape2.1 = batch.length := by
  have hone : ∀ p ∈ batch, lookup_one fc p.1 p.2 = .ok (selOf fc p.1 p.2) :=
    fun p hp => lookup_one_eq_selOf fc p.1 p.2 (hkv p hp)
  have hrows : batch.mapM (fun p => lookup_one fc p.1 p.2) =
      .ok (batch.map (fun p => selOf fc p.1 p.2)) :=
    mapM_eq_ok_map _ _ batch hone
  have hmax' : ∀ r ∈ batch.map (fun p => selOf fc p.1 p.2),
      r.length ≤ fc.lookup_max_sel_elem_num := by
    intro r hr
    obtain ⟨p, hp, he⟩ := List.mem_map.mp hr
    rw [← he]
    exact hmax p hp
  simp only [lookup_preprocess, hrows]
  have hany : (batch.map (fun p => selOf fc p.1 p.2)).any
      (fun r => fc.lookup_max_sel_elem_num < r.length) = false := by
    rw [List.any_eq_false]
    intro r hr
    simp only [decide_eq_true_eq]
    exact Nat.not_lt.mpr (hmax' r hr)
  rw [if_neg (by rw [hany]; simp)]
  set rows := batch.map (fun p => selOf fc p.1 p.2) with hrowsdef
  set maxSel := fc.lookup_max_sel_elem_num with hms
  have hvals : rows.map (fun r =>
      booleanMask (r ++ List.replicate (maxSel - r.length) "")
        (maskList r.length maxSel)) = rows.map id := by
    apply List.map_congr_left
    intro r hr
    have hle := hmax' r hr
    rw [booleanMask_maskList _ r.length maxSel
      (by rw [List.length_append, List.length_replicate]; omega) hle]
    exact List.take_left' rfl
  have hidx1 : rows.map (fun r =>
      booleanMask ((List.range maxSel).map (fun j => if j < r.length then j else 0))
        (maskList r.length maxSel)) = rows.map (fun r => List.range r.length) := by
    apply List.map_congr_left
    intro r hr
    have hle := hmax' r hr
    rw [booleanMask_maskList _ r.length maxSel (by rw [List.length_map, List.length_range]) hle]
    rw [← List.map_take, List.take_range, Nat.min_eq_left hle]
    rw [List.map_congr_left (fun j hj => by
      rw [if_pos (List.mem_range.mp hj)])]
    exact List.map_id _
  have hidx0 : rows.enum.map (fun ir =>
      booleanMask (List.replicate maxSel ir.1) (maskList ir.2.length maxSel)) =
      rows.enum.map (fun ir => List.replicate ir.2.length ir.1) := by
    apply List.map_congr_left
    intro ir hir
    obtain ⟨i, r⟩ := ir
    have hmem : r ∈ rows := by
      obtain ⟨hlt, hx⟩ := List.mem_enum hir
      rw [hx]
      exact List.getElem_mem hlt
    have hle := hmax' r hmem
    rw [booleanMask_maskList _ r.length maxSel (List.length_replicate _ _) hle,
      List.take_replicate, Nat.min_eq_left hle]
  refine ⟨_, rfl, ?_, ?_, rfl⟩
  · show (rows.map (fun r =>
      booleanMask (r ++ List.replicate (maxSel - r.length) "")
        (maskList r.length maxSel))).flatten = rows.flatten
    rw [hvals, List.map_id]
  · show ((rows.enum.map (fun ir =>
        booleanMask (List.replicate maxSel ir.1) (maskList ir.2.length maxSel))).flatten).zip
          ((rows.map (fun r =>
            booleanMask ((List.range maxSel).map (fun j => if j < r.length then j else 0))
              (maskList r.length maxSel))).flatten) =
        (rows.enum.map (fun ir => (List.range ir.2.length).map (fun j => (ir.1, j)))).flatten
    rw [hidx0, hidx1, map_eq_enum_map (fun r => List.range r.length) rows]
    rw [zip_flatten _ _ (by rw [List.length_map, List.length_map])
      (by
        intro p hp
        rw [List.zip_map'] at hp
        obtain ⟨ir, _, he⟩ := List.mem_map.mp hp
        rw [← he]
        simp)]
    rw [List.zip_map']
    rw [List.map_map]
    apply congrArg List.flatten
    apply List.map_congr_left
    intro ir _
    show (List.replicate ir.2.length ir.1).zip (List.range ir.2.length) =
      (List.range ir.2.length).map (fun j => (ir.1, j))
    have := zip_replicate_self ir.1 (List.range ir.2.length)
    rw [List.length_range] at this
    exact this

/-- Witness for C4: key "x" against map "x:1,y:2,x:3" with separator ','
and kv_separator ':' selects exactly the values ["1", "3"] for that
example, at positions (0,0), (0,1), discarding "y:2". -/
theorem c4_lookup_selection_witness :
    ∃ s, lookup_preprocess lookupCfg [("x", "x:1,y:2,x:3")] = .ok s ∧
      s.values = ["1", "3"] ∧ s.indices = [(0, 0), (0, 1)] := by
  obtain ⟨s, h1, h2, h3, _h4⟩ := c4_lookup_selection lookupCfg
    [("x", "x:1,y:2,x:3")] (by decide) (by decide)
  refine ⟨s, h1, ?_, ?_⟩
  · rw [h2]; rfl
  · rw [h3]; rfl

/-- Counterexample to C4 as stated: key "x" against map "x:1,x:2,x:3"
has three matching entries while lookup_max_sel_elem_num is 2; instead
of selecting up to 2 entries and producing a sparse container, the
batch fails — `tf.pad(sel_vals, [[0, max_sel_num - n]])` is called with
a negative pad amount, a runtime error. -/
theorem c4_counterexample :
    (selOf lookupCfg "x" "x:1,x:2,x:3").length = 3 ∧
    lookupCfg.lookup_max_sel_elem_num = 2 ∧
    ∃ e, lookup_preprocess lookupCfg [("x", "x:1,x:2,x:3")] = .error e := by
  exact ⟨rfl, rfl, ⟨_, rfl⟩⟩

/-! ## Claim theorems: C6 -/

theorem idxFrom_length : ∀ (rows : List (List String)) (i : Nat),
    (idxFrom rows i).length = rows.flatten.length := by
  intro rows
  induction rows with
  | nil => intro i; rfl
  | cons r rs ih =>
    intro i
    simp [idxFrom, List.flatten_cons, ih]

theorem multiIdx_gather (msep : Char) : ∀ (vals : List String)
    (idxs : List (Nat × Nat)) (t0 : Nat), idxs.length = t0 + vals.length →
    (idxFrom (vals.map (fun v => strSplit v msep true)) t0).map
        (fun tq => ((idxs.getD tq.1 (0, 0)).1, (idxs.getD tq.1 (0, 0)).2, tq.2)) =
      ((idxs.drop t0).zip vals).flatMap
        (fun ev => (List.range (strSplit ev.2 msep true).length).map
          (fun q => (ev.1.1, ev.1.2, q))) := by
  intro vals
  induction vals with
  | nil =>
    intro idxs t0 h
    simp [idxFrom]
  | cons v vs ih =>
    intro idxs t0 h
    rw [List.map_cons]
    simp only [idxFrom]
    rw [List.map_append, List.map_map]
    have ht0 : t0 < idxs.length := by rw [h]; simp
    rw [List.drop_eq_getElem_cons ht0, List.zip_cons_cons, List.flatMap_cons]
    congr 1
    · apply List.map_congr_left
      intro j _
      show ((idxs.getD t0 (0, 0)).1, (idxs.getD t0 (0, 0)).2, j) =
        ((idxs[t0], v).1.1, (idxs[t0], v).1.2, j)
      rw [List.getD_eq_getElem idxs (0, 0) ht0]
    · exact ih idxs (t0 + 1) (by rw [h]; simp; omega)

/-- Claim C6: for a sequence feature with a secondary separator, the
second-level split yields a 3-D layout in which every inner token's
first two coordinates are exactly its parent token's (row, position)
coordinates from the first split — rows are never renumbered — and the
third coordinate is the inner split's own newly assigned position, so
the parent split's row grouping is preserved: the 3-D entries are, in
order, one block per parent entry (row, pos, v), holding that block's
inner tokens at (row, pos, 0..k-1). -/
theorem c6_seq_multi_sep_inherits (field : List String) (sep msep : Char) :
    (seqMultiSplit (tfStringSplit field sep false) msep).indices3 =
      ((tfStringSplit field sep false).indices.zip
        (tfStringSplit field sep false).values).flatMap
        (fun ev => (List.range (strSplit ev.2 msep true).length).map
          (fun q => (ev.1.1, ev.1.2, q))) ∧
    (seqMultiSplit (tfStringSplit field sep false) msep).values =
      (tfStringSplit field sep false).values.flatMap
        (fun v => strSplit v msep true) := by
  constructor
  · have hlen : (tfStringSplit field sep false).indices.length =
        0 + (tfStringSplit field sep false).values.length := by
      show (idxFrom (field.map (fun s => strSplit s sep false)) 0).length = _
      rw [idxFrom_length]
      simp [tfStringSplit]
    have hg := multiIdx_gather msep (tfStringSplit field sep false).values
      (tfStringSplit field sep false).indices 0 hlen
    rw [List.drop_zero] at hg
    exact hg
  · show ((tfStringSplit field sep false).values.map
      (fun v => strSplit v msep true)).flatten = _
    rw [List.flatMap_def]
